import Mathlib

set_option maxRecDepth 8000

/-!
Verification of the Tiered Range Configuration logic of the Dropshipr
repository.

The embedded code lives in
  - src/frontend/src/components/MultiStepForm.jsx
      (sortRanges, rangesAreContiguous, addPriceVendor, removePriceVendor,
       updatePriceVendorField, addPriceRange, updatePriceRange,
       removePriceRangeRow, the inventory analogues, applyDuplicate)
  - src/unnamed/part_008
      (a second sortRanges / rangesAreContiguous variant, addVendorToActiveTab,
       PriceSettings.validateRanges)
  - src/frontend/src/services/api.js
      (transformStoreDataForAPI, transformStoreDataForFrontend)

JavaScript numbers are modelled as rationals (ℚ); the numeric strings the UI
produces are modelled as Lean Strings, and the JS builtins the code applies to
them (parseFloat, parseInt, String.trim, String.toUpperCase, the falsy-string
default `s || d`) are given executable models below.  The parseFloat/parseInt
models cover the fragment of the builtins exercised by this code: optional
leading whitespace followed by an unsigned decimal literal (digit run, optional
dot, digit run), anything else giving NaN (modelled as `none`); every range
input field is sanitized by the UI with value.replace of all characters other
than digits and dots, so signs and exponents never reach these calls.
-/

/-- Digit character in the ASCII sense, as used by parseFloat / parseInt. -/
def isDig (c : Char) : Bool := decide (48 ≤ c.toNat) && decide (c.toNat ≤ 57)

/-- Whitespace characters skipped by JS parseFloat/parseInt and String.trim:
space, tab, line feed, carriage return. -/
def isSpaceChar (c : Char) : Bool :=
  decide (c.toNat = 32) || decide (c.toNat = 9) || decide (c.toNat = 10) ||
    decide (c.toNat = 13)

/-- Value of a run of digit characters, most significant first. -/
def digitsToNat (ds : List Char) : ℕ := ds.foldl (fun a c => 10 * a + (c.toNat - 48)) 0

/-- Core of the parseFloat model, on the character list after leading
whitespace: an integer digit run, an optional dot with a fractional digit run;
`none` models NaN (no digits at all). -/
def parseFloatChars (cs : List Char) : Option ℚ :=
  match cs.dropWhile isDig with
  | '.' :: r2 =>
    if (cs.takeWhile isDig).isEmpty && (r2.takeWhile isDig).isEmpty then none
    else
      -- the decimal value intRun.fracRun, i.e.
      -- digitsToNat intRun + digitsToNat fracRun / 10^(length fracRun),
      -- written over a common denominator so that the kernel can evaluate it
      some (mkRat
        (digitsToNat (cs.takeWhile isDig) * 10 ^ (r2.takeWhile isDig).length +
          digitsToNat (r2.takeWhile isDig))
        (10 ^ (r2.takeWhile isDig).length))
  | _ =>
    if (cs.takeWhile isDig).isEmpty then none
    else some (digitsToNat (cs.takeWhile isDig))

/-- Model of JS parseFloat on the string fragment this code feeds it
(see the module comment); `none` models NaN. -/
def parseFloatQ (s : String) : Option ℚ := parseFloatChars (s.data.dropWhile isSpaceChar)

/-- Core of the parseInt model: the leading digit run only (parseInt stops at
the first non-digit, in particular at a decimal point). -/
def parseIntChars (cs : List Char) : Option ℕ :=
  if (cs.takeWhile isDig).isEmpty then none
  else some (digitsToNat (cs.takeWhile isDig))

/-- Model of JS parseInt (radix 10) on the same string fragment. -/
def parseIntN (s : String) : Option ℕ := parseIntChars (s.data.dropWhile isSpaceChar)

/-- JS `parseFloat(s) || 0`: NaN (and 0 itself) collapses to 0. -/
def parseFloatD (s : String) : ℚ := (parseFloatQ s).getD 0

/-- JS `parseInt(s) || 0`. -/
def parseIntD (s : String) : ℕ := (parseIntN s).getD 0

/-- JS `s || d` for strings: the empty string is the only falsy string. -/
def jsOr (s d : String) : String := if s = "" then d else s

/-- Remove trailing whitespace characters. -/
def rstrip : List Char → List Char
  | [] => []
  | c :: t =>
    let r := rstrip t
    if r.isEmpty && isSpaceChar c then [] else c :: r

/-- Model of JS String.prototype.trim. -/
def trimChars (cs : List Char) : List Char := rstrip (cs.dropWhile isSpaceChar)

/-- ASCII uppercase of one character, as JS toUpperCase acts on this data. -/
def upChar (c : Char) : Char :=
  if 97 ≤ c.toNat ∧ c.toNat ≤ 122 then Char.ofNat (c.toNat - 32) else c

/-- Model of JS String.prototype.toUpperCase on ASCII data. -/
def jsToUpper (s : String) : String := String.mk (s.data.map upChar)

/-- `String(to || "MAX").trim().toUpperCase() === "MAX"`: the open-upper-bound
sentinel test of rangesAreContiguous in MultiStepForm.jsx. -/
def isMaxTok (s : String) : Bool :=
  decide (((trimChars (jsOr s "MAX").data).map upChar) = "MAX".data)

/-!  The range model.  A UI range row keeps every field as a string; the price
rows carry margin and minimumMargin, the inventory rows carry multipliedWith.
Both row shapes share the from/to fields the validators inspect, so the row is
parametrised by its payload (`from` and `to` are reserved tokens in Lean,
hence the field names `from_` and `to_`). -/

/-- Payload of a price range row: margin percent and minimum margin, both as
entered (strings). -/
structure PricePayload where
  margin : String
  minimumMargin : String
deriving DecidableEq, Repr

/-- Payload of an inventory range row. -/
structure InvPayload where
  multipliedWith : String
deriving DecidableEq, Repr

/-- One UI range row: bounds as entered (strings), plus the kind-specific
payload. -/
structure RangeRow (π : Type) where
  from_ : String
  to_ : String
  payload : π
deriving DecidableEq, Repr

/-- `parseFloat(r.from || 0)`: the parsed lower bound of a row, with an empty
`from` field read as 0; `none` models NaN. -/
def fromVal {π : Type} (r : RangeRow π) : Option ℚ := parseFloatQ (jsOr r.from_ "0")

/-- Sort key of sortRanges: `parseFloat(r.from || 0)`.  A NaN key (non-numeric
non-empty `from`) is mapped to 0 here; the JS engine's order for a NaN
comparator result is unspecified, but every list containing such an element is
rejected by both validators at the first/pairwise checks whatever the order,
so the choice does not affect any validator outcome. -/
def sortKey {π : Type} (r : RangeRow π) : ℚ := (fromVal r).getD 0

/-- Stable insertion of a row into an already sorted list: the row goes after
every element with a strictly smaller key and before every element with an
equal or larger key, so an element earlier in the original list stays earlier
among equal keys. -/
def insertByKey {π : Type} (a : RangeRow π) : List (RangeRow π) → List (RangeRow π)
  | [] => [a]
  | b :: l => if sortKey b < sortKey a then b :: insertByKey a l else a :: b :: l

/-- sortRanges (both files): `[...ranges].sort((a,b)=>parseFloat(a.from||0)-parseFloat(b.from||0))`.
JS Array.prototype.sort is a stable sort by this comparator, and a stable sort
with respect to a total preorder is unique, so this structurally recursive
stable insertion sort computes the same list. -/
def sortRanges {π : Type} : List (RangeRow π) → List (RangeRow π)
  | [] => []
  | a :: l => insertByKey a (sortRanges l)

/-- The 1e-9 tolerance of the MultiStepForm.jsx contiguity walk. -/
def epsTol : ℚ := mkRat 1 1000000000

/-- `Math.abs(x - y) <= e`, computed on numerators and denominators (Int and
Nat arithmetic only) so that the kernel can evaluate it; `absDiffLe_iff`
below proves it agrees with the textbook reading. -/
def absDiffLe (x y e : ℚ) : Bool :=
  decide ((((x.num * y.den - y.num * x.den).natAbs : ℤ) * e.den : ℤ)
    ≤ e.num * (x.den * y.den))

/-- The pairwise walk of rangesAreContiguous (MultiStepForm.jsx): each
adjacent pair must have `parseFloat(a.to)` and `parseFloat(b.from)` finite and
within 1e-9 of each other (`Math.abs(a-b) > 1e-9` rejects, as do the
Number.isFinite guards). -/
def pairsOk {π : Type} : List (RangeRow π) → Bool
  | a :: b :: rest =>
    (match parseFloatQ a.to_, parseFloatQ b.from_ with
     | some x, some y => absDiffLe x y epsTol
     | _, _ => false) && pairsOk (b :: rest)
  | _ => true

/-- The pairwise walk of the part_008 variant: adjacent `to` and `from`
strings must be equal (String(curTo) !== String(nextFrom) rejects). -/
def pairs2Ok {π : Type} : List (RangeRow π) → Bool
  | a :: b :: rest => decide (a.to_ = b.from_) && pairs2Ok (b :: rest)
  | _ => true

/-- rangesAreContiguous of MultiStepForm.jsx: empty lists are accepted; the
sorted copy must start at 0 (`parseFloat(sr[0].from || 0)` finite and exactly
0), pass the 1e-9 pairwise walk, and end in a row whose `to` trims and
uppercases to "MAX" (empty `to` defaulting to "MAX"). -/
def rangesAreContiguous {π : Type} (ranges : List (RangeRow π)) : Bool :=
  if ranges.isEmpty then true
  else
    match sortRanges ranges with
    | [] => true
    | r0 :: tl =>
      match fromVal r0 with
      | none => false
      | some s =>
        decide (s = 0) && pairsOk (r0 :: tl) &&
          isMaxTok ((r0 :: tl).getLast (List.cons_ne_nil r0 tl)).to_

/-- rangesAreContiguous of src/unnamed/part_008: same sort and zero-start
check (`firstFrom !== 0` also rejects NaN), but the pairwise walk compares the
bound strings for equality and the final `to` must be the exact string "MAX"
(empty defaulting to "MAX", no trim or case folding). -/
def rangesAreContiguous2 {π : Type} (ranges : List (RangeRow π)) : Bool :=
  if ranges.isEmpty then true
  else
    match sortRanges ranges with
    | [] => true
    | r0 :: tl =>
      match fromVal r0 with
      | none => false
      | some s =>
        decide (s = 0) && pairs2Ok (r0 :: tl) &&
          decide (jsOr ((r0 :: tl).getLast (List.cons_ne_nil r0 tl)).to_ "MAX" = "MAX")

/-- Tier membership as the spec states it for claim C1: `x >= t.from` and
(`t.to` is the open sentinel MAX, or `x < t.to`), on the parsed bounds
(an unparseable bound contains nothing, as every JS comparison with NaN is
false). -/
def containsR {π : Type} (r : RangeRow π) (x : ℚ) : Bool :=
  match fromVal r with
  | none => false
  | some f =>
    decide (f ≤ x) &&
      (isMaxTok r.to_ ||
        (match parseFloatQ r.to_ with
         | some t => decide (x < t)
         | none => false))

/-! Basic facts about the stable sort. -/

/-- Inserting is a permutation-preserving operation. -/
theorem insertByKey_perm {π : Type} (a : RangeRow π) (l : List (RangeRow π)) :
    List.Perm (insertByKey a l) (a :: l) := by
  induction l with
  | nil => simp [insertByKey]
  | cons b t ih =>
    rw [insertByKey]
    split
    · exact (ih.cons b).trans (List.Perm.swap a b t)
    · exact List.Perm.refl _

/-- sortRanges permutes its input. -/
theorem sortRanges_perm {π : Type} (l : List (RangeRow π)) : List.Perm (sortRanges l) l := by
  induction l with
  | nil => exact List.Perm.refl _
  | cons a t ih => exact (insertByKey_perm a (sortRanges t)).trans (ih.cons a)

/-- Members of an insertion. -/
theorem mem_insertByKey {π : Type} {x a : RangeRow π} {l : List (RangeRow π)} :
    x ∈ insertByKey a l ↔ x = a ∨ x ∈ l := by
  rw [(insertByKey_perm a l).mem_iff]
  simp

/-- Inserting into a key-sorted list keeps it key-sorted. -/
theorem sorted_insertByKey {π : Type} (a : RangeRow π) {l : List (RangeRow π)}
    (h : l.Sorted (fun p q => sortKey p ≤ sortKey q)) :
    (insertByKey a l).Sorted (fun p q => sortKey p ≤ sortKey q) := by
  induction l with
  | nil => simp [insertByKey]
  | cons b t ih =>
    rw [List.sorted_cons] at h
    rw [insertByKey]
    split
    · rename_i hba
      rw [List.sorted_cons]
      refine ⟨?_, ih h.2⟩
      intro x hx
      rcases mem_insertByKey.1 hx with rfl | hxt
      · exact le_of_lt hba
      · exact h.1 x hxt
    · rename_i hba
      push_neg at hba
      rw [List.sorted_cons]
      refine ⟨?_, List.sorted_cons.2 h⟩
      intro x hx
      rcases List.mem_cons.1 hx with rfl | hxt
      · exact hba
      · exact le_trans hba (h.1 x hxt)

/-- sortRanges sorts by the parsed `from` key. -/
theorem sortRanges_sorted {π : Type} (l : List (RangeRow π)) :
    (sortRanges l).Sorted (fun p q => sortKey p ≤ sortKey q) := by
  induction l with
  | nil => simp [sortRanges]
  | cons a t ih => exact sorted_insertByKey a ih

/-! The numerator/denominator tolerance check agrees with the textbook
absolute-difference reading. -/

/-- absDiffLe is `Math.abs(x - y) <= e`. -/
theorem absDiffLe_iff (x y e : ℚ) : absDiffLe x y e = true ↔ |x - y| ≤ e := by
  have hxd : (0 : ℚ) < (x.den : ℚ) := by exact_mod_cast x.den_pos
  have hyd : (0 : ℚ) < (y.den : ℚ) := by exact_mod_cast y.den_pos
  have hed : (0 : ℚ) < (e.den : ℚ) := by exact_mod_cast e.den_pos
  have hsub : x - y =
      ((x.num * (y.den : ℤ) - y.num * (x.den : ℤ) : ℤ) : ℚ) /
        (((x.den : ℤ) * (y.den : ℤ) : ℤ) : ℚ) := by
    conv_lhs => rw [← Rat.num_div_den x, ← Rat.num_div_den y]
    rw [div_sub_div _ _ (ne_of_gt hxd) (ne_of_gt hyd)]
    push_cast
    ring_nf
  rw [absDiffLe, decide_eq_true_iff, hsub, abs_div]
  have hD : (0 : ℚ) < (((x.den : ℤ) * (y.den : ℤ) : ℤ) : ℚ) := by
    push_cast
    positivity
  rw [abs_of_pos hD, div_le_iff₀ hD]
  conv_rhs => rw [← Rat.num_div_den e]
  rw [div_mul_eq_mul_div, le_div_iff₀ hed]
  rw [show |((x.num * (y.den : ℤ) - y.num * (x.den : ℤ) : ℤ) : ℚ)| =
      (((x.num * (y.den : ℤ) - y.num * (x.den : ℤ)).natAbs : ℤ) : ℚ) by
    rw [← Int.cast_abs, Int.abs_eq_natAbs]]
  constructor
  · intro h
    calc (((x.num * (y.den : ℤ) - y.num * (x.den : ℤ)).natAbs : ℤ) : ℚ) * (e.den : ℚ)
        = (((x.num * (y.den : ℤ) - y.num * (x.den : ℤ)).natAbs * (e.den : ℤ) : ℤ) : ℚ) := by
          push_cast; ring
      _ ≤ ((e.num * ((x.den : ℤ) * (y.den : ℤ)) : ℤ) : ℚ) := by exact_mod_cast h
      _ = (e.num : ℚ) * (((x.den : ℤ) * (y.den : ℤ) : ℤ) : ℚ) := by push_cast; ring
  · intro h
    have : (((x.num * (y.den : ℤ) - y.num * (x.den : ℤ)).natAbs * (e.den : ℤ) : ℤ) : ℚ)
        ≤ ((e.num * ((x.den : ℤ) * (y.den : ℤ)) : ℤ) : ℚ) := by
      calc (((x.num * (y.den : ℤ) - y.num * (x.den : ℤ)).natAbs * (e.den : ℤ) : ℤ) : ℚ)
          = (((x.num * (y.den : ℤ) - y.num * (x.den : ℤ)).natAbs : ℤ) : ℚ) * (e.den : ℚ) := by
            push_cast; ring
        _ ≤ (e.num : ℚ) * (((x.den : ℤ) * (y.den : ℤ) : ℤ) : ℚ) := h
        _ = ((e.num * ((x.den : ℤ) * (y.den : ℤ)) : ℤ) : ℚ) := by push_cast; ring
    exact_mod_cast this

/-! A string that parseFloat accepts starts (after whitespace) with a digit or
a dot, hence is neither empty nor a spelling of the MAX sentinel. -/

/-- Shape of a character list parseFloatChars accepts. -/
theorem parseFloatChars_head {cs : List Char} {q : ℚ} (h : parseFloatChars cs = some q) :
    ∃ c t, cs = c :: t ∧ (isDig c = true ∨ c = '.') := by
  cases cs with
  | nil => simp [parseFloatChars] at h
  | cons c t =>
    refine ⟨c, t, rfl, ?_⟩
    by_cases hd : isDig c = true
    · exact Or.inl hd
    · right
      rw [parseFloatChars] at h
      rw [List.takeWhile_cons, List.dropWhile_cons] at h
      simp only [hd] at h
      simp only [Bool.false_eq_true, if_false] at h
      split at h
      · rename_i heq
        exact (List.cons.injEq _ _ _ _ ▸ heq) |>.1.symm ▸ rfl
      · simp at h

/-- parseFloat never accepts the empty string. -/
theorem parseFloatQ_empty : parseFloatQ "" = none := by
  simp [parseFloatQ, parseFloatChars]

/-- A string parseFloat accepts is truthy, so `s || d` keeps it. -/
theorem jsOr_of_parse {s : String} {q : ℚ} (h : parseFloatQ s = some q) (d : String) :
    jsOr s d = s := by
  rw [jsOr, if_neg]
  intro he
  rw [he, parseFloatQ_empty] at h
  exact Option.noConfusion h

/-- A digit is not whitespace. -/
theorem isSpaceChar_of_isDig {c : Char} (h : isDig c = true) : isSpaceChar c = false := by
  rw [isDig, Bool.and_eq_true, decide_eq_true_iff, decide_eq_true_iff] at h
  rw [isSpaceChar]
  simp only [Bool.or_eq_false_iff, decide_eq_false_iff_not]
  omega

/-- A digit stays itself under ASCII uppercasing. -/
theorem upChar_of_isDig {c : Char} (h : isDig c = true) : upChar c = c := by
  rw [isDig, Bool.and_eq_true, decide_eq_true_iff, decide_eq_true_iff] at h
  rw [upChar, if_neg]
  omega

/-- A string parseFloat accepts cannot pass the MAX-sentinel test. -/
theorem isMaxTok_eq_false_of_parse {s : String} {q : ℚ} (h : parseFloatQ s = some q) :
    isMaxTok s = false := by
  obtain ⟨c, t, hcs, hc⟩ := parseFloatChars_head h
  have hsne : s ≠ "" := by
    intro he
    rw [he, parseFloatQ_empty] at h
    exact Option.noConfusion h
  have hsp : isSpaceChar c = false := by
    rcases hc with hd | rfl
    · exact isSpaceChar_of_isDig hd
    · decide
  have hup : upChar c ≠ 'M' := by
    rcases hc with hd | rfl
    · rw [upChar_of_isDig hd]
      rw [isDig, Bool.and_eq_true, decide_eq_true_iff, decide_eq_true_iff] at hd
      intro he
      have : c.toNat = 77 := by rw [he]; rfl
      omega
    · decide
  rw [isMaxTok, jsOr, if_neg hsne, trimChars]
  have hdw : s.data.dropWhile isSpaceChar = c :: t := hcs
  rw [hdw, rstrip]
  simp only [hsp, Bool.and_false, Bool.false_eq_true, if_false]
  rw [decide_eq_false_iff_not]
  intro habs
  rw [List.map_cons] at habs
  have : upChar c = 'M' := by
    have := List.cons.injEq (upChar c) ((rstrip t).map upChar) 'M' ['A', 'X'] ▸ habs
    exact this.1
  exact hup this

/-! The chain structure of an accepted, exactly-contiguous sorted list, and
the resulting partition property. -/

/-- Exact contiguity of adjacent parsed bounds: `parseFloat(a.to)` equals
`parseFloat(b.from)` for every adjacent pair (the special case of the 1e-9
walk in which the tolerance is never exercised). -/
def pairsExact {π : Type} : List (RangeRow π) → Bool
  | a :: b :: rest => decide (parseFloatQ a.to_ = parseFloatQ b.from_) && pairsExact (b :: rest)
  | _ => true

/-- A chained tier list starting at lower bound `lo`: every tier's parsed
lower bound continues the chain, interior tiers have a parsed (finite) upper
bound equal to the next lower bound and at least their own lower bound, and
the last tier carries the MAX sentinel. -/
inductive GoodChain {π : Type} : ℚ → List (RangeRow π) → Prop
  | single (lo : ℚ) (r : RangeRow π) :
      fromVal r = some lo → isMaxTok r.to_ = true → GoodChain lo [r]
  | cons (lo hi : ℚ) (r : RangeRow π) (rest : List (RangeRow π)) :
      fromVal r = some lo → parseFloatQ r.to_ = some hi → lo ≤ hi →
      GoodChain hi rest → GoodChain lo (r :: rest)

/-- A row with parsed lower bound `f` contains only inputs at least `f`. -/
theorem containsR_le {π : Type} {r : RangeRow π} {f x : ℚ}
    (hf : fromVal r = some f) (h : containsR r x = true) : f ≤ x := by
  rw [containsR, hf, Bool.and_eq_true, decide_eq_true_iff] at h
  exact h.1

/-- Everything a chained list contains lies above the chain's start. -/
theorem GoodChain.lo_le {π : Type} {lo : ℚ} {l : List (RangeRow π)}
    (h : GoodChain lo l) {r : RangeRow π} {x : ℚ}
    (hr : r ∈ l) (hc : containsR r x = true) : lo ≤ x := by
  induction h with
  | single lo r' hf _ =>
    rw [List.mem_singleton] at hr
    exact containsR_le (hr ▸ hf) hc
  | cons lo hi r' rest hf _ hle _ ih =>
    rcases List.mem_cons.1 hr with rfl | hrest
    · exact containsR_le hf hc
    · exact le_trans hle (ih hrest)

/-- On a chained list, every input at least the chain's start is contained in
exactly one tier. -/
theorem GoodChain.countP_eq_one {π : Type} {lo : ℚ} {l : List (RangeRow π)}
    (h : GoodChain lo l) (x : ℚ) (hx : lo ≤ x) :
    l.countP (fun r => containsR r x) = 1 := by
  induction h with
  | single lo r hf hmax =>
    have hc : containsR r x = true := by
      rw [containsR, hf, hmax]
      simp [hx]
    simp [List.countP_cons, hc]
  | cons lo hi r rest hf hto hle hrest ih =>
    have hmaxf : isMaxTok r.to_ = false := isMaxTok_eq_false_of_parse hto
    by_cases hxhi : x < hi
    · have hc : containsR r x = true := by
        rw [containsR, hf, hmaxf, hto]
        simp [hx, hxhi]
      have hzero : rest.countP (fun r => containsR r x) = 0 := by
        rw [List.countP_eq_zero]
        intro r' hr'
        rw [Bool.not_eq_true]
        by_contra hcon
        rw [Bool.not_eq_false] at hcon
        exact absurd (hrest.lo_le hr' hcon) (not_le.2 hxhi)
      simp [List.countP_cons, hc, hzero]
    · have hc : containsR r x = false := by
        rw [containsR, hf, hmaxf, hto]
        simp [hxhi]
      simp [List.countP_cons, hc, ih (le_of_not_lt hxhi)]

/-- An accepted sorted list whose adjacent parsed bounds agree exactly is a
chain from its first lower bound. -/
theorem goodChain_of_checks {π : Type} :
    ∀ (l : List (RangeRow π)) (r0 : RangeRow π) (f : ℚ),
      fromVal r0 = some f →
      pairsOk (r0 :: l) = true →
      pairsExact (r0 :: l) = true →
      List.Chain' (fun a b => sortKey a ≤ sortKey b) (r0 :: l) →
      isMaxTok ((r0 :: l).getLast (List.cons_ne_nil r0 l)).to_ = true →
      GoodChain f (r0 :: l) := by
  intro l
  induction l with
  | nil =>
    intro r0 f hf _ _ _ hlast
    exact GoodChain.single f r0 hf hlast
  | cons b rest ih =>
    intro r0 f hf hpairs hexact hkeys hlast
    rw [pairsOk, Bool.and_eq_true] at hpairs
    obtain ⟨hp1, hp2⟩ := hpairs
    rcases hta : parseFloatQ r0.to_ with _ | xa
    · rw [hta] at hp1; exact absurd hp1 (by simp)
    rcases htb : parseFloatQ b.from_ with _ | yb
    · rw [hta, htb] at hp1; exact absurd hp1 (by simp)
    rw [pairsExact, Bool.and_eq_true] at hexact
    have hexact1 : parseFloatQ r0.to_ = parseFloatQ b.from_ :=
      decide_eq_true_iff.1 hexact.1
    have hxy : xa = yb := by
      rw [hta, htb] at hexact1
      exact Option.some.injEq _ _ ▸ hexact1
    have hfb : fromVal b = some xa := by
      rw [fromVal, jsOr_of_parse htb, htb, hxy]
    have hkey1 : sortKey r0 ≤ sortKey b := (List.chain'_cons.1 hkeys).1
    have hfx : f ≤ xa := by
      rw [sortKey, hf, sortKey, hfb] at hkey1
      exact hkey1
    have hlast' : isMaxTok ((b :: rest).getLast (List.cons_ne_nil b rest)).to_ = true := by
      rw [List.getLast_cons (List.cons_ne_nil b rest)] at hlast
      exact hlast
    exact GoodChain.cons f xa r0 (b :: rest) hf hta hfx
      (ih b xa hfb hp2 hexact.2 (List.chain'_cons.1 hkeys).2 hlast')

/-- Unpacking a successful rangesAreContiguous run on a non-empty list. -/
theorem rangesAreContiguous_spec {π : Type} {ranges : List (RangeRow π)}
    (hne : ranges ≠ []) (hacc : rangesAreContiguous ranges = true) :
    ∃ r0 tl, sortRanges ranges = r0 :: tl ∧ fromVal r0 = some 0 ∧
      pairsOk (r0 :: tl) = true ∧
      isMaxTok ((r0 :: tl).getLast (List.cons_ne_nil r0 tl)).to_ = true := by
  rw [rangesAreContiguous] at hacc
  rw [if_neg (by simpa using hne)] at hacc
  split at hacc
  · rename_i heq
    have hperm : List.Perm [] ranges := heq ▸ sortRanges_perm ranges
    exact absurd hperm.nil_eq.symm hne
  · rename_i r0 tl heq
    refine ⟨r0, tl, heq, ?_⟩
    split at hacc
    · exact absurd hacc (by simp)
    · rename_i s hs
      rw [Bool.and_eq_true, Bool.and_eq_true] at hacc
      obtain ⟨⟨h0, hp⟩, hm⟩ := hacc
      rw [decide_eq_true_iff] at h0
      exact ⟨h0 ▸ hs, hp, hm⟩

/-- C1 (amended): for every non-empty tier list accepted by
rangesAreContiguous whose adjacent sorted bounds agree exactly (not merely
within the 1e-9 tolerance), every input x ≥ 0 is contained in exactly one
tier, where containment is `x >= from` and (`to` is the MAX sentinel or
`x < to`). -/
theorem claim_C1 {π : Type} (ranges : List (RangeRow π)) (hne : ranges ≠ [])
    (hacc : rangesAreContiguous ranges = true)
    (hexact : pairsExact (sortRanges ranges) = true)
    (x : ℚ) (hx : 0 ≤ x) :
    ranges.countP (fun r => containsR r x) = 1 := by
  obtain ⟨r0, tl, hsr, hf, hp, hm⟩ := rangesAreContiguous_spec hne hacc
  have hkeys : List.Chain' (fun a b => sortKey a ≤ sortKey b) (r0 :: tl) := by
    have hs := sortRanges_sorted ranges
    rw [hsr] at hs
    exact List.Pairwise.chain' hs
  have hex : pairsExact (r0 :: tl) = true := hsr ▸ hexact
  have hch := goodChain_of_checks tl r0 0 hf hp hex hkeys hm
  have hcount := hch.countP_eq_one x hx
  calc ranges.countP (fun r => containsR r x)
      = (sortRanges ranges).countP (fun r => containsR r x) :=
        ((sortRanges_perm ranges).countP_eq _).symm
    _ = 1 := by rw [hsr]; exact hcount

/-- C1 as stated is false on the code: the validator accepts the empty tier
list, which contains no input, and accepts a gap of 1e-10 between adjacent
bounds, inside which no tier contains the input. -/
theorem claim_C1_counterexample :
    (rangesAreContiguous ([] : List (RangeRow PricePayload)) = true ∧
      ([] : List (RangeRow PricePayload)).countP (fun r => containsR r 0) ≠ 1) ∧
    (rangesAreContiguous
        [(⟨"0", "5", ⟨"", ""⟩⟩ : RangeRow PricePayload),
         ⟨"5.0000000001", "MAX", ⟨"", ""⟩⟩] = true ∧
      (0 : ℚ) ≤ mkRat 500000000005 100000000000 ∧
      ([(⟨"0", "5", ⟨"", ""⟩⟩ : RangeRow PricePayload),
         ⟨"5.0000000001", "MAX", ⟨"", ""⟩⟩].countP
        (fun r => containsR r (mkRat 500000000005 100000000000)) ≠ 1)) := by
  decide

/-- Witness for claim_C1 at a concrete two-tier list and x = 60. -/
theorem claim_C1_witness :
    ([(⟨"0", "50", ⟨"20", "5"⟩⟩ : RangeRow PricePayload), ⟨"50", "MAX", ⟨"15", "10"⟩⟩]
        ≠ ([] : List (RangeRow PricePayload))) ∧
    rangesAreContiguous
      [(⟨"0", "50", ⟨"20", "5"⟩⟩ : RangeRow PricePayload),
       ⟨"50", "MAX", ⟨"15", "10"⟩⟩] = true ∧
    pairsExact (sortRanges
      [(⟨"0", "50", ⟨"20", "5"⟩⟩ : RangeRow PricePayload),
       ⟨"50", "MAX", ⟨"15", "10"⟩⟩]) = true ∧
    [(⟨"0", "50", ⟨"20", "5"⟩⟩ : RangeRow PricePayload), ⟨"50", "MAX", ⟨"15", "10"⟩⟩].countP
      (fun r => containsR r 60) = 1 :=
  ⟨by decide, by decide, by decide,
    claim_C1 _ (by decide) (by decide) (by decide) 60 (by decide)⟩

/-! Claim C2: what the pairwise acceptance actually guarantees. -/

/-- A successful MultiStepForm validation passes its pairwise walk. -/
theorem rangesAreContiguous_pairs {π : Type} {ranges : List (RangeRow π)}
    (h : rangesAreContiguous ranges = true) : pairsOk (sortRanges ranges) = true := by
  by_cases hne : ranges = []
  · subst hne; rfl
  · rw [rangesAreContiguous, if_neg (by simpa using hne)] at h
    split at h
    · rename_i heq; rw [heq]; rfl
    · rename_i r0 tl heq
      rw [heq]
      split at h
      · exact absurd h (by simp)
      · rw [Bool.and_eq_true, Bool.and_eq_true] at h
        exact h.1.2

/-- A successful part_008 validation passes its pairwise walk. -/
theorem rangesAreContiguous2_pairs {π : Type} {ranges : List (RangeRow π)}
    (h : rangesAreContiguous2 ranges = true) : pairs2Ok (sortRanges ranges) = true := by
  by_cases hne : ranges = []
  · subst hne; rfl
  · rw [rangesAreContiguous2, if_neg (by simpa using hne)] at h
    split at h
    · rename_i heq; rw [heq]; rfl
    · rename_i r0 tl heq
      rw [heq]
      split at h
      · exact absurd h (by simp)
      · rw [Bool.and_eq_true, Bool.and_eq_true] at h
        exact h.1.2

/-- The MultiStepForm pairwise walk certifies: adjacent bounds parse and are
within the 1e-9 tolerance of each other. -/
theorem pairsOk_chain' {π : Type} (l : List (RangeRow π)) (h : pairsOk l = true) :
    List.Chain' (fun a b => ∃ x y, parseFloatQ a.to_ = some x ∧
      parseFloatQ b.from_ = some y ∧ |x - y| ≤ epsTol) l := by
  induction l with
  | nil => simp
  | cons a t ih =>
    cases t with
    | nil => simp
    | cons b rest =>
      rw [pairsOk, Bool.and_eq_true] at h
      refine List.chain'_cons.2 ⟨?_, ih h.2⟩
      rcases hx : parseFloatQ a.to_ with _ | x
      · rw [hx] at h; exact absurd h.1 (by simp)
      rcases hy : parseFloatQ b.from_ with _ | y
      · rw [hx, hy] at h; exact absurd h.1 (by simp)
      have hd : absDiffLe x y epsTol = true := by
        have := h.1
        rw [hx, hy] at this
        exact this
      exact ⟨x, y, rfl, rfl, (absDiffLe_iff x y epsTol).1 hd⟩

/-- The part_008 pairwise walk certifies: adjacent bound strings are equal. -/
theorem pairs2Ok_chain' {π : Type} (l : List (RangeRow π)) (h : pairs2Ok l = true) :
    List.Chain' (fun a b => a.to_ = b.from_) l := by
  induction l with
  | nil => simp
  | cons a t ih =>
    cases t with
    | nil => simp
    | cons b rest =>
      rw [pairs2Ok, Bool.and_eq_true] at h
      exact List.chain'_cons.2 ⟨decide_eq_true_iff.1 h.1, ih h.2⟩

/-- C2 (amended): the MultiStepForm validator accepts only lists whose
adjacent sorted bounds parse and differ by at most the 1e-9 tolerance (a
nonzero difference up to 1e-9 is accepted, and rejection is just the boolean
false — no GapOrOverlapError value exists); the part_008 variant accepts only
lists whose adjacent sorted bound strings are exactly equal. -/
theorem claim_C2 {π : Type} (ranges : List (RangeRow π)) :
    (rangesAreContiguous ranges = true →
      List.Chain' (fun a b => ∃ x y, parseFloatQ a.to_ = some x ∧
        parseFloatQ b.from_ = some y ∧ |x - y| ≤ epsTol) (sortRanges ranges)) ∧
    (rangesAreContiguous2 ranges = true →
      List.Chain' (fun a b => a.to_ = b.from_) (sortRanges ranges)) :=
  ⟨fun h => pairsOk_chain' _ (rangesAreContiguous_pairs h),
   fun h => pairs2Ok_chain' _ (rangesAreContiguous2_pairs h)⟩

/-- C2 as stated is false on the code: a sorted list whose adjacent bounds
differ by the nonzero amount 1e-10 is accepted by rangesAreContiguous, not
rejected. -/
theorem claim_C2_counterexample :
    sortRanges
        [(⟨"0", "5", ⟨"", ""⟩⟩ : RangeRow PricePayload),
         ⟨"5.0000000001", "MAX", ⟨"", ""⟩⟩] =
      [(⟨"0", "5", ⟨"", ""⟩⟩ : RangeRow PricePayload),
       ⟨"5.0000000001", "MAX", ⟨"", ""⟩⟩] ∧
    parseFloatQ "5" = some 5 ∧
    parseFloatQ "5.0000000001" = some (mkRat 50000000001 10000000000) ∧
    (5 : ℚ) ≠ mkRat 50000000001 10000000000 ∧
    rangesAreContiguous
      [(⟨"0", "5", ⟨"", ""⟩⟩ : RangeRow PricePayload),
       ⟨"5.0000000001", "MAX", ⟨"", ""⟩⟩] = true := by
  decide

/-- Witness for claim_C2 at a concrete accepted list. -/
theorem claim_C2_witness :
    rangesAreContiguous
      [(⟨"0", "50", ⟨"", ""⟩⟩ : RangeRow PricePayload), ⟨"50", "MAX", ⟨"", ""⟩⟩] = true ∧
    List.Chain' (fun a b => ∃ x y, parseFloatQ a.to_ = some x ∧
        parseFloatQ b.from_ = some y ∧ |x - y| ≤ epsTol)
      (sortRanges
        [(⟨"0", "50", ⟨"", ""⟩⟩ : RangeRow PricePayload), ⟨"50", "MAX", ⟨"", ""⟩⟩]) :=
  ⟨by decide,
    (claim_C2 [(⟨"0", "50", ⟨"", ""⟩⟩ : RangeRow PricePayload),
      ⟨"50", "MAX", ⟨"", ""⟩⟩]).1 (by decide)⟩

/-- C3 (amended): both validators accept the empty tier list (return true);
no EmptyRuleSetError exists in the code, and empty input is not rejected. -/
theorem claim_C3 {π : Type} :
    rangesAreContiguous ([] : List (RangeRow π)) = true ∧
    rangesAreContiguous2 ([] : List (RangeRow π)) = true :=
  ⟨rfl, rfl⟩

/-- C3 as stated is false on the code: validating the empty tier list
succeeds instead of failing. -/
theorem claim_C3_counterexample :
    rangesAreContiguous ([] : List (RangeRow PricePayload)) = true ∧
    rangesAreContiguous2 ([] : List (RangeRow PricePayload)) = true ∧
    rangesAreContiguous ([] : List (RangeRow PricePayload)) ≠ false := by
  decide

/-! Claim C4: duplicate lower bounds. -/

/-- Every row of a chain has a parsed lower bound at least the chain start. -/
theorem GoodChain.fromVal_ge {π : Type} {lo : ℚ} {l : List (RangeRow π)}
    (h : GoodChain lo l) {r : RangeRow π} (hr : r ∈ l) :
    ∃ g, fromVal r = some g ∧ lo ≤ g := by
  induction h with
  | single lo r' hf _ =>
    rw [List.mem_singleton] at hr
    exact ⟨lo, hr ▸ hf, le_refl lo⟩
  | cons lo hi r' rest hf _ hle _ ih =>
    rcases List.mem_cons.1 hr with rfl | hrest
    · exact ⟨lo, hf, le_refl lo⟩
    · obtain ⟨g, hg, hig⟩ := ih hrest
      exact ⟨g, hg, le_trans hle hig⟩

/-- Inversion of a chain on a cons cell. -/
theorem GoodChain.inv {π : Type} {lo : ℚ} {r : RangeRow π} {rest : List (RangeRow π)}
    (h : GoodChain lo (r :: rest)) :
    fromVal r = some lo ∧
      ((rest = [] ∧ isMaxTok r.to_ = true) ∨
        (∃ hi, parseFloatQ r.to_ = some hi ∧ lo ≤ hi ∧ GoodChain hi rest)) := by
  cases h with
  | single lo r hf hm => exact ⟨hf, Or.inl ⟨rfl, hm⟩⟩
  | cons lo hi r rest hf hto hle hrest => exact ⟨hf, Or.inr ⟨hi, hto, hle, hrest⟩⟩

/-- In a chain, a row whose parsed lower bound recurs later is degenerate:
its parsed upper bound equals its own lower bound. -/
theorem GoodChain.dup_degenerate {π : Type} {f : ℚ} {r₁ r₂ : RangeRow π} :
    ∀ {l₁ : List (RangeRow π)} {lo : ℚ} {l₂ l₃ : List (RangeRow π)},
      GoodChain lo (l₁ ++ r₁ :: l₂ ++ r₂ :: l₃) →
      fromVal r₁ = some f → fromVal r₂ = some f →
      parseFloatQ r₁.to_ = some f := by
  intro l₁
  induction l₁ with
  | nil =>
    intro lo l₂ l₃ h hf₁ hf₂
    rw [List.nil_append] at h
    obtain ⟨hf, hrest⟩ := h.inv
    rcases hrest with ⟨hnil, _⟩ | ⟨hi, hto, hle, hrest⟩
    · exact absurd hnil (by simp)
    · have hlof : lo = f := by
        rw [hf₁] at hf
        exact (Option.some.injEq _ _ ▸ hf).symm
      have hr₂ : r₂ ∈ l₂ ++ r₂ :: l₃ := by simp
      obtain ⟨g, hg, hig⟩ := hrest.fromVal_ge hr₂
      have hgf : f = g := by
        rw [hf₂] at hg
        exact (Option.some.injEq _ _ ▸ hg)
      have : hi = f := le_antisymm (hgf ▸ hig) (hlof ▸ hle)
      rw [hto, this]
  | cons a t ih =>
    intro lo l₂ l₃ h hf₁ hf₂
    rw [List.cons_append] at h
    obtain ⟨_, hrest⟩ := h.inv
    rcases hrest with ⟨hnil, _⟩ | ⟨hi, _, _, hrest⟩
    · exact absurd hnil (by simp)
    · exact ih hrest hf₁ hf₂

/-- C4 (amended): the validator performs no duplicate-lower-bound check and
there is no DuplicateBoundError; instead, in any accepted exactly-contiguous
list, a tier whose parsed lower bound recurs in a later tier of the sorted
order is degenerate (its parsed upper bound equals its lower bound) and
contains no input at all. -/
theorem claim_C4 {π : Type} (ranges : List (RangeRow π)) (hne : ranges ≠ [])
    (hacc : rangesAreContiguous ranges = true)
    (hexact : pairsExact (sortRanges ranges) = true)
    (l₁ l₂ l₃ : List (RangeRow π)) (r₁ r₂ : RangeRow π) (f : ℚ)
    (hsplit : sortRanges ranges = l₁ ++ r₁ :: l₂ ++ r₂ :: l₃)
    (hf₁ : fromVal r₁ = some f) (hf₂ : fromVal r₂ = some f) :
    parseFloatQ r₁.to_ = some f ∧ ∀ x : ℚ, containsR r₁ x = false := by
  obtain ⟨r0, tl, hsr, hf0, hp, hm⟩ := rangesAreContiguous_spec hne hacc
  have hkeys : List.Chain' (fun a b => sortKey a ≤ sortKey b) (r0 :: tl) := by
    have hs := sortRanges_sorted ranges
    rw [hsr] at hs
    exact List.Pairwise.chain' hs
  have hex : pairsExact (r0 :: tl) = true := hsr ▸ hexact
  have hch := goodChain_of_checks tl r0 0 hf0 hp hex hkeys hm
  have hch' : GoodChain 0 (l₁ ++ r₁ :: l₂ ++ r₂ :: l₃) := by
    rw [← hsplit, hsr]
    exact hch
  have hdeg := hch'.dup_degenerate hf₁ hf₂
  refine ⟨hdeg, fun x => ?_⟩
  rw [containsR, hf₁, isMaxTok_eq_false_of_parse hdeg, hdeg]
  by_cases hfx : f ≤ x
  · simp [not_lt.2 hfx]
  · simp [hfx]

/-- C4 as stated is false on the code: this list has two tiers sharing the
lower bound "5", yet both validators accept it, and no DuplicateBoundError
exists. -/
theorem claim_C4_counterexample :
    ((⟨"5", "5", ⟨"", ""⟩⟩ : RangeRow PricePayload).from_ =
      (⟨"5", "MAX", ⟨"", ""⟩⟩ : RangeRow PricePayload).from_) ∧
    rangesAreContiguous
      [(⟨"0", "5", ⟨"", ""⟩⟩ : RangeRow PricePayload), ⟨"5", "5", ⟨"", ""⟩⟩,
       ⟨"5", "MAX", ⟨"", ""⟩⟩] = true ∧
    rangesAreContiguous2
      [(⟨"0", "5", ⟨"", ""⟩⟩ : RangeRow PricePayload), ⟨"5", "5", ⟨"", ""⟩⟩,
       ⟨"5", "MAX", ⟨"", ""⟩⟩] = true := by
  decide

/-- Witness for claim_C4 at the concrete duplicated list. -/
theorem claim_C4_witness :
    ([(⟨"0", "5", ⟨"", ""⟩⟩ : RangeRow PricePayload), ⟨"5", "5", ⟨"", ""⟩⟩,
        ⟨"5", "MAX", ⟨"", ""⟩⟩] ≠ []) ∧
    parseFloatQ (⟨"5", "5", ⟨"", ""⟩⟩ : RangeRow PricePayload).to_ = some 5 ∧
    containsR (⟨"5", "5", ⟨"", ""⟩⟩ : RangeRow PricePayload) 5 = false :=
  ⟨by decide,
    (claim_C4 [(⟨"0", "5", ⟨"", ""⟩⟩ : RangeRow PricePayload), ⟨"5", "5", ⟨"", ""⟩⟩,
        ⟨"5", "MAX", ⟨"", ""⟩⟩] (by decide) (by decide) (by decide)
      [⟨"0", "5", ⟨"", ""⟩⟩] [] [] (⟨"5", "5", ⟨"", ""⟩⟩) (⟨"5", "MAX", ⟨"", ""⟩⟩) 5
      (by decide) (by decide) (by decide)).1,
    ((claim_C4 [(⟨"0", "5", ⟨"", ""⟩⟩ : RangeRow PricePayload), ⟨"5", "5", ⟨"", ""⟩⟩,
        ⟨"5", "MAX", ⟨"", ""⟩⟩] (by decide) (by decide) (by decide)
      [⟨"0", "5", ⟨"", ""⟩⟩] [] [] (⟨"5", "5", ⟨"", ""⟩⟩) (⟨"5", "MAX", ⟨"", ""⟩⟩) 5
      (by decide) (by decide) (by decide)).2) 5⟩

/-! The vendor-level data model and the serialization adapter
(src/frontend/src/services/api.js).  The store-level fields of
transformStoreDataForAPI / transformStoreDataForFrontend (name,
marketplace_id, api_key_enc, id, is_active, created_at) do not participate in
any claim and are not part of the vendor arrays; the embedding covers the
per-vendor arrays those functions map over. -/

/-- One entry of priceSettingsByVendor. -/
structure PriceVendor where
  vendorId : Int
  purchaseTax : String
  marketplaceFees : String
  priceRanges : List (RangeRow PricePayload)
deriving DecidableEq, Repr

/-- One entry of inventorySettingsByVendor (its ranges are also stored under
the field name priceRanges in the source). -/
structure InventoryVendor where
  vendorId : Int
  priceRanges : List (RangeRow InvPayload)
deriving DecidableEq, Repr

/-- Wire form of one price range. -/
structure ApiPriceRange where
  from_value : ℚ
  to_value : String
  margin_percentage : ℚ
  minimum_margin_cents : Int
deriving DecidableEq, Repr

/-- Wire form of one price-settings vendor entry. -/
structure ApiPriceVendor where
  vendor_id : Int
  purchase_tax_percentage : ℚ
  marketplace_fees_percentage : ℚ
  price_ranges : List ApiPriceRange
deriving DecidableEq, Repr

/-- Wire form of one inventory range. -/
structure ApiInventoryRange where
  from_value : ℚ
  to_value : String
  multiplier : ℚ
deriving DecidableEq, Repr

/-- Wire form of one inventory-settings vendor entry. -/
structure ApiInventoryVendor where
  vendor_id : Int
  inventory_ranges : List ApiInventoryRange
deriving DecidableEq, Repr

/-- The price-range map inside transformStoreDataForAPI:
from_value = `parseFloat(range.from) || 0`, to_value = `range.to || "MAX"`,
margin_percentage = `parseFloat(range.margin) || 0`,
minimum_margin_cents = `(parseInt(range.minimumMargin) || 0) * 100`. -/
def encodePriceRange (r : RangeRow PricePayload) : ApiPriceRange :=
  { from_value := parseFloatD r.from_
    to_value := jsOr r.to_ "MAX"
    margin_percentage := parseFloatD r.payload.margin
    minimum_margin_cents := (parseIntD r.payload.minimumMargin : Int) * 100 }

/-- The price-vendor map inside transformStoreDataForAPI. -/
def encodePriceVendor (v : PriceVendor) : ApiPriceVendor :=
  { vendor_id := v.vendorId
    purchase_tax_percentage := parseFloatD v.purchaseTax
    marketplace_fees_percentage := parseFloatD v.marketplaceFees
    price_ranges := v.priceRanges.map encodePriceRange }

/-- The inventory-range map inside transformStoreDataForAPI. -/
def encodeInventoryRange (r : RangeRow InvPayload) : ApiInventoryRange :=
  { from_value := parseFloatD r.from_
    to_value := jsOr r.to_ "MAX"
    multiplier := parseFloatD r.payload.multipliedWith }

/-- The inventory-vendor map inside transformStoreDataForAPI. -/
def encodeInventoryVendor (v : InventoryVendor) : ApiInventoryVendor :=
  { vendor_id := v.vendorId
    inventory_ranges := v.priceRanges.map encodeInventoryRange }

/-- transformStoreDataForAPI, restricted to the two vendor arrays. -/
def transformStoreDataForAPI (priceSettingsByVendor : List PriceVendor)
    (inventorySettingsByVendor : List InventoryVendor) :
    List ApiPriceVendor × List ApiInventoryVendor :=
  (priceSettingsByVendor.map encodePriceVendor,
   inventorySettingsByVendor.map encodeInventoryVendor)

/-- Smallest exponent k with `q * 10^k` an integer, i.e. with the reduced
denominator dividing 10^k (searched up to 1100, beyond any JS double, whose
denominator always divides 2^1074). -/
def pow10Exp (q : ℚ) : ℕ :=
  ((List.range 1101).find? (fun k => decide (10 ^ k % q.den = 0))).getD 0

/-- Decimal digit string of n / 10^k, k minimal: JS prints no trailing
fractional zeros and at least one integer digit. -/
def decString (n k : ℕ) : String :=
  if k = 0 then Nat.repr n
  else
    let s := Nat.repr n
    let s2 := if s.length < k + 1 then
        String.mk (List.replicate (k + 1 - s.length) '0') ++ s
      else s
    let ds := s2.data
    String.mk (ds.take (ds.length - k)) ++ "." ++ String.mk (ds.drop (ds.length - k))

/-- Model of JS Number.prototype.toString on the rationals this code handles
(every JS double is a fraction with denominator dividing a power of ten, and
toString prints the exact shortest decimal for the in-range values used
here). -/
def qToString (q : ℚ) : String :=
  let k := pow10Exp q
  let m := q.num.natAbs * 10 ^ k / q.den
  if q.num < 0 then "-" ++ decString m k else decString m k

/-- The price-range map inside transformStoreDataForFrontend:
from = from_value.toString(), to = to_value kept verbatim,
margin = margin_percentage.toString(),
minimumMargin = `((minimum_margin_cents || 0) / 100).toString()` (the
division written as mkRat cents 100). -/
def decodePriceRange (r : ApiPriceRange) : RangeRow PricePayload :=
  { from_ := qToString r.from_value
    to_ := r.to_value
    payload := { margin := qToString r.margin_percentage
                 minimumMargin := qToString (mkRat r.minimum_margin_cents 100) } }

/-- The price-vendor map inside transformStoreDataForFrontend. -/
def decodePriceVendor (s : ApiPriceVendor) : PriceVendor :=
  { vendorId := s.vendor_id
    purchaseTax := qToString s.purchase_tax_percentage
    marketplaceFees := qToString s.marketplace_fees_percentage
    priceRanges := s.price_ranges.map decodePriceRange }

/-- The inventory-range map inside transformStoreDataForFrontend. -/
def decodeInventoryRange (r : ApiInventoryRange) : RangeRow InvPayload :=
  { from_ := qToString r.from_value
    to_ := r.to_value
    payload := { multipliedWith := qToString r.multiplier } }

/-- The inventory-vendor map inside transformStoreDataForFrontend. -/
def decodeInventoryVendor (s : ApiInventoryVendor) : InventoryVendor :=
  { vendorId := s.vendor_id
    priceRanges := s.inventory_ranges.map decodeInventoryRange }

/-- transformStoreDataForFrontend, restricted to the two vendor arrays. -/
def transformStoreDataForFrontend (price_settings_by_vendor : List ApiPriceVendor)
    (inventory_settings_by_vendor : List ApiInventoryVendor) :
    List PriceVendor × List InventoryVendor :=
  (price_settings_by_vendor.map decodePriceVendor,
   inventory_settings_by_vendor.map decodeInventoryVendor)

/-- A numeric string is canonical when it prints back from its parsed value:
parseFloat accepts it and toString of that value is the string itself. -/
def canonNum (s : String) : Bool :=
  match parseFloatQ s with
  | some a => decide (qToString a = s)
  | none => false

/-- An integer string is canonical for parseInt in the same sense. -/
def canonNat (s : String) : Bool :=
  match parseIntN s with
  | some n => decide (qToString (n : ℚ) = s)
  | none => false

/-! Claim C5: the decode-encode round trip. -/

/-- Unpack a canonical numeric string. -/
theorem canonNum_spec {s : String} (h : canonNum s = true) :
    ∃ a, parseFloatQ s = some a ∧ qToString a = s := by
  rw [canonNum] at h
  split at h
  · rename_i a ha
    exact ⟨a, ha, decide_eq_true_iff.1 h⟩
  · exact absurd h (by simp)

/-- Unpack a canonical integer string. -/
theorem canonNat_spec {s : String} (h : canonNat s = true) :
    ∃ n : ℕ, parseIntN s = some n ∧ qToString (n : ℚ) = s := by
  rw [canonNat] at h
  split at h
  · rename_i n hn
    exact ⟨n, hn, decide_eq_true_iff.1 h⟩
  · exact absurd h (by simp)

/-- Minor units divided by 100 give back the major units. -/
theorem mkRat_cents (n : ℕ) : mkRat ((n : ℤ) * 100) 100 = (n : ℚ) := by
  rw [Rat.mkRat_eq_div]
  push_cast
  rw [mul_div_assoc]
  norm_num

/-- A price range with canonical fields survives the encode-decode round
trip. -/
theorem roundtripPriceRange (r : RangeRow PricePayload)
    (hf : canonNum r.from_ = true) (hto : r.to_ ≠ "")
    (hm : canonNum r.payload.margin = true)
    (hmm : canonNat r.payload.minimumMargin = true) :
    decodePriceRange (encodePriceRange r) = r := by
  obtain ⟨a, ha, has⟩ := canonNum_spec hf
  obtain ⟨b, hb, hbs⟩ := canonNum_spec hm
  obtain ⟨n, hn, hns⟩ := canonNat_spec hmm
  cases r with
  | mk f t p =>
    cases p with
    | mk mg mm =>
      rw [decodePriceRange, encodePriceRange]
      dsimp only at ha hb hn has hbs hns hto ⊢
      rw [parseFloatD, parseFloatD, parseIntD, ha, hb, hn]
      rw [RangeRow.mk.injEq, PricePayload.mk.injEq]
      refine ⟨?_, ?_, ?_, ?_⟩
      · exact has
      · rw [jsOr, if_neg hto]
      · exact hbs
      · simp only [Option.getD_some]
        rw [mkRat_cents]
        exact hns

/-- An inventory range with canonical fields survives the round trip. -/
theorem roundtripInvRange (r : RangeRow InvPayload)
    (hf : canonNum r.from_ = true) (hto : r.to_ ≠ "")
    (hm : canonNum r.payload.multipliedWith = true) :
    decodeInventoryRange (encodeInventoryRange r) = r := by
  obtain ⟨a, ha, has⟩ := canonNum_spec hf
  obtain ⟨b, hb, hbs⟩ := canonNum_spec hm
  cases r with
  | mk f t p =>
    cases p with
    | mk mw =>
      rw [decodeInventoryRange, encodeInventoryRange]
      dsimp only at ha hb has hbs hto ⊢
      rw [parseFloatD, parseFloatD, ha, hb]
      rw [RangeRow.mk.injEq, InvPayload.mk.injEq]
      exact ⟨has, by rw [jsOr, if_neg hto], hbs⟩

/-- C5 (amended): for vendor lists whose range fields are canonical decimal
strings (each numeric field prints back from its parsed value, `to` nonempty)
and whose minimumMargin is a canonical integer string, the composition of
transformStoreDataForAPI and transformStoreDataForFrontend restores every
vendor's ranges exactly.  In general minimumMargin only survives when it has
no fractional part, because the encoder converts it with
`parseInt(...) * 100`, truncating the major units. -/
theorem claim_C5 (ps : List PriceVendor) (iv : List InventoryVendor)
    (_hvalidP : ps.all (fun v => rangesAreContiguous v.priceRanges) = true)
    (_hvalidI : iv.all (fun v => rangesAreContiguous v.priceRanges) = true)
    (hcanonP : ps.all (fun v => v.priceRanges.all (fun r =>
        canonNum r.from_ && !decide (r.to_ = "") && canonNum r.payload.margin &&
          canonNat r.payload.minimumMargin)) = true)
    (hcanonI : iv.all (fun v => v.priceRanges.all (fun r =>
        canonNum r.from_ && !decide (r.to_ = "") &&
          canonNum r.payload.multipliedWith)) = true) :
    (transformStoreDataForFrontend (transformStoreDataForAPI ps iv).1
        (transformStoreDataForAPI ps iv).2).1.map PriceVendor.priceRanges =
      ps.map PriceVendor.priceRanges ∧
    (transformStoreDataForFrontend (transformStoreDataForAPI ps iv).1
        (transformStoreDataForAPI ps iv).2).2.map InventoryVendor.priceRanges =
      iv.map InventoryVendor.priceRanges := by
  rw [List.all_eq_true] at hcanonP hcanonI
  constructor
  · rw [transformStoreDataForAPI, transformStoreDataForFrontend]
    dsimp only
    rw [List.map_map, List.map_map]
    apply List.map_congr_left
    intro v hv
    have hcv := hcanonP v hv
    rw [List.all_eq_true] at hcv
    show (decodePriceVendor (encodePriceVendor v)).priceRanges = v.priceRanges
    rw [decodePriceVendor, encodePriceVendor]
    dsimp only
    rw [List.map_map]
    have : ∀ r ∈ v.priceRanges, (decodePriceRange ∘ encodePriceRange) r = id r := by
      intro r hr
      have hcr := hcv r hr
      rw [Bool.and_eq_true, Bool.and_eq_true, Bool.and_eq_true] at hcr
      obtain ⟨⟨⟨h1, h2⟩, h3⟩, h4⟩ := hcr
      rw [Bool.not_eq_true', decide_eq_false_iff_not] at h2
      exact roundtripPriceRange r h1 h2 h3 h4
    rw [List.map_congr_left this, List.map_id]
  · rw [transformStoreDataForAPI, transformStoreDataForFrontend]
    dsimp only
    rw [List.map_map, List.map_map]
    apply List.map_congr_left
    intro v hv
    have hcv := hcanonI v hv
    rw [List.all_eq_true] at hcv
    show (decodeInventoryVendor (encodeInventoryVendor v)).priceRanges = v.priceRanges
    rw [decodeInventoryVendor, encodeInventoryVendor]
    dsimp only
    rw [List.map_map]
    have : ∀ r ∈ v.priceRanges, (decodeInventoryRange ∘ encodeInventoryRange) r = id r := by
      intro r hr
      have hcr := hcv r hr
      rw [Bool.and_eq_true, Bool.and_eq_true] at hcr
      obtain ⟨⟨h1, h2⟩, h3⟩ := hcr
      rw [Bool.not_eq_true', decide_eq_false_iff_not] at h2
      exact roundtripInvRange r h1 h2 h3
    rw [List.map_congr_left this, List.map_id]

/-- C5 as stated is false on the code: a validated rule set whose
minimumMargin is the decimal string "5.75" decodes from its encoding with
minimumMargin "5" — the 75 minor units are lost to parseInt truncation, not
to floating-point rounding. -/
theorem claim_C5_counterexample :
    rangesAreContiguous [(⟨"0", "MAX", ⟨"20", "5.75"⟩⟩ : RangeRow PricePayload)] = true ∧
    (transformStoreDataForFrontend
        (transformStoreDataForAPI [⟨7, "0", "0", [⟨"0", "MAX", ⟨"20", "5.75"⟩⟩]⟩] []).1
        (transformStoreDataForAPI [⟨7, "0", "0", [⟨"0", "MAX", ⟨"20", "5.75"⟩⟩]⟩] []).2).1 =
      [⟨7, "0", "0", [⟨"0", "MAX", ⟨"20", "5"⟩⟩]⟩] ∧
    ("5" : String) ≠ "5.75" := by
  decide

/-- Witness for claim_C5 at concrete canonical vendor lists. -/
theorem claim_C5_witness :
    ([(⟨7, "0", "0", [⟨"0", "50", ⟨"20", "5"⟩⟩, ⟨"50", "MAX", ⟨"15", "10"⟩⟩]⟩ :
        PriceVendor)].all (fun v => rangesAreContiguous v.priceRanges) = true) ∧
    (transformStoreDataForFrontend
        (transformStoreDataForAPI
          [⟨7, "0", "0", [⟨"0", "50", ⟨"20", "5"⟩⟩, ⟨"50", "MAX", ⟨"15", "10"⟩⟩]⟩]
          [⟨3, [⟨"0", "10", ⟨"1"⟩⟩, ⟨"10", "MAX", ⟨"0.5"⟩⟩]⟩]).1
        (transformStoreDataForAPI
          [⟨7, "0", "0", [⟨"0", "50", ⟨"20", "5"⟩⟩, ⟨"50", "MAX", ⟨"15", "10"⟩⟩]⟩]
          [⟨3, [⟨"0", "10", ⟨"1"⟩⟩, ⟨"10", "MAX", ⟨"0.5"⟩⟩]⟩]).2).1.map
        PriceVendor.priceRanges =
      [(⟨7, "0", "0", [⟨"0", "50", ⟨"20", "5"⟩⟩, ⟨"50", "MAX", ⟨"15", "10"⟩⟩]⟩ :
        PriceVendor)].map PriceVendor.priceRanges :=
  ⟨by decide,
    (claim_C5
      [⟨7, "0", "0", [⟨"0", "50", ⟨"20", "5"⟩⟩, ⟨"50", "MAX", ⟨"15", "10"⟩⟩]⟩]
      [⟨3, [⟨"0", "10", ⟨"1"⟩⟩, ⟨"10", "MAX", ⟨"0.5"⟩⟩]⟩]
      (by decide) (by decide) (by decide) (by decide)).1⟩

/-! Claim C6: minor-unit conversion. -/

/-- Folding digits from any accumulator stays under the scaled bound. -/
theorem foldl_digits_lt (l : List Char) :
    ∀ acc : ℕ, (∀ c ∈ l, isDig c = true) →
      l.foldl (fun a c => 10 * a + (c.toNat - 48)) acc < (acc + 1) * 10 ^ l.length := by
  induction l with
  | nil => intro acc _; simp
  | cons c t ih =>
    intro acc hd
    rw [List.foldl_cons, List.length_cons]
    have hc : c.toNat - 48 ≤ 9 := by
      have h9 := hd c (List.mem_cons_self c t)
      rw [isDig, Bool.and_eq_true, decide_eq_true_iff, decide_eq_true_iff] at h9
      omega
    calc t.foldl (fun a c => 10 * a + (c.toNat - 48)) (10 * acc + (c.toNat - 48))
        < (10 * acc + (c.toNat - 48) + 1) * 10 ^ t.length :=
          ih _ (fun c' hc' => hd c' (List.mem_cons_of_mem _ hc'))
      _ ≤ ((acc + 1) * 10) * 10 ^ t.length := by
          apply Nat.mul_le_mul_right
          omega
      _ = (acc + 1) * 10 ^ (t.length + 1) := by ring

/-- The value of a digit run is below the corresponding power of ten. -/
theorem digitsToNat_lt (l : List Char) (hd : ∀ c ∈ l, isDig c = true) :
    digitsToNat l < 10 ^ l.length := by
  have := foldl_digits_lt l 0 hd
  rw [digitsToNat]
  omega

/-- Floor of the decimal n.f with f < 10^k is n. -/
theorem floor_decimal (n f k : ℕ) (hf : f < 10 ^ k) :
    ⌊(mkRat ((n : ℤ) * 10 ^ k + (f : ℤ)) (10 ^ k) : ℚ)⌋ = (n : ℤ) := by
  rw [Rat.mkRat_eq_div, Int.floor_eq_iff]
  have hk : (0 : ℚ) < ((10 ^ k : ℕ) : ℚ) := by positivity
  constructor
  · rw [le_div_iff₀ hk]
    push_cast
    have : (0 : ℚ) ≤ (f : ℚ) := Nat.cast_nonneg f
    nlinarith
  · rw [div_lt_iff₀ hk]
    push_cast
    have : (f : ℚ) < (10 : ℚ) ^ k := by exact_mod_cast hf
    nlinarith

/-- On every string parseFloat accepts, `parseInt(s) || 0` computes exactly
the integer part (floor) of the parsed value. -/
theorem parseIntD_eq_floor {s : String} {q : ℚ} (h : parseFloatQ s = some q) :
    (parseIntD s : ℤ) = ⌊q⌋ := by
  rw [parseFloatQ, parseFloatChars] at h
  rw [parseIntD, parseIntN, parseIntChars]
  split at h
  · rename_i r2 heq
    split at h
    · exact absurd h (by simp)
    · rename_i hnot
      have hq : q = mkRat
          (digitsToNat ((s.data.dropWhile isSpaceChar).takeWhile isDig) *
              10 ^ ((r2.takeWhile isDig).length) + digitsToNat (r2.takeWhile isDig))
          (10 ^ ((r2.takeWhile isDig).length)) := by
        exact (Option.some.injEq _ _ ▸ h).symm
      have hflt : digitsToNat (r2.takeWhile isDig) < 10 ^ (r2.takeWhile isDig).length :=
        digitsToNat_lt _ (fun c hc => List.mem_takeWhile_imp hc)
      by_cases hds : ((s.data.dropWhile isSpaceChar).takeWhile isDig).isEmpty = true
      · rw [if_pos hds]
        have hds' : (s.data.dropWhile isSpaceChar).takeWhile isDig = [] :=
          List.isEmpty_iff.1 hds
        have h0 := floor_decimal 0 (digitsToNat (r2.takeWhile isDig))
          ((r2.takeWhile isDig).length) hflt
        rw [hq, hds']
        rw [show digitsToNat ([] : List Char) = 0 from rfl]
        simp only [Nat.cast_zero, zero_mul, zero_add] at h0 ⊢
        rw [h0]
        rfl
      · rw [if_neg hds]
        rw [hq, Option.getD_some]
        exact (floor_decimal _ _ _ hflt).symm
  · split at h
    · exact absurd h (by simp)
    · rename_i hds
      have hq : q = ((digitsToNat ((s.data.dropWhile isSpaceChar).takeWhile isDig) : ℕ) : ℚ) :=
        (Option.some.injEq _ _ ▸ h).symm
      rw [if_neg hds, Option.getD_some, hq, Int.floor_natCast]

/-- Round-half-up on rationals: the rounding the design document prescribes
for minor-unit and price rounding (spec section 4.3/4.5). -/
def roundHalfUp (x : ℚ) : ℤ := ⌊x + 1 / 2⌋

/-- C6 (amended): the encoder converts minimumMargin with
`(parseInt(value) || 0) * 100`: for every accepted decimal string the cents
are floor(value) * 100 — the integer part times 100, discarding any
fractional major units — and this agrees with the claimed round(value * 100)
exactly when the value is an integer. -/
theorem claim_C6 (r : RangeRow PricePayload) (q : ℚ)
    (hq : parseFloatQ r.payload.minimumMargin = some q) :
    (encodePriceRange r).minimum_margin_cents = ⌊q⌋ * 100 ∧
    (q.den = 1 → (encodePriceRange r).minimum_margin_cents = roundHalfUp (q * 100)) := by
  have h1 : (parseIntD r.payload.minimumMargin : ℤ) = ⌊q⌋ := parseIntD_eq_floor hq
  constructor
  · show (parseIntD r.payload.minimumMargin : ℤ) * 100 = ⌊q⌋ * 100
    rw [h1]
  · intro hden
    have hq' : q = (q.num : ℚ) := by
      conv_lhs => rw [← Rat.num_div_den q]
      rw [hden, Nat.cast_one, div_one]
    have hfloor : ⌊q⌋ = q.num := by
      conv_lhs => rw [hq']
      rw [Int.floor_intCast]
    show (parseIntD r.payload.minimumMargin : ℤ) * 100 = roundHalfUp (q * 100)
    have hq100 : q * 100 = ((q.num * 100 : ℤ) : ℚ) := by
      push_cast
      rw [← hq']
    rw [h1, hfloor, roundHalfUp, hq100, Int.floor_int_add]
    norm_num

/-- C6 as stated is false on the code: the decimal string "5.75" encodes to
500 minor units (parseInt truncation), not round(5.75 * 100) = 575. -/
theorem claim_C6_counterexample :
    parseFloatQ "5.75" = some (mkRat 23 4) ∧
    (encodePriceRange ⟨"0", "MAX", ⟨"20", "5.75"⟩⟩).minimum_margin_cents = 500 ∧
    roundHalfUp (mkRat 23 4 * 100) = 575 ∧ (500 : ℤ) ≠ 575 := by
  refine ⟨by decide, by decide, ?_, by decide⟩
  have h : (mkRat 23 4 * 100 + 1 / 2 : ℚ) = 1151 / 2 := by
    rw [Rat.mkRat_eq_div]
    norm_num
  rw [roundHalfUp, h, Int.floor_eq_iff]
  norm_num

/-- Witness for claim_C6 at the decimal string "5.75". -/
theorem claim_C6_witness :
    parseFloatQ ((⟨"0", "MAX", ⟨"20", "5.75"⟩⟩ : RangeRow PricePayload)).payload.minimumMargin =
      some (mkRat 23 4) ∧
    (encodePriceRange ⟨"0", "MAX", ⟨"20", "5.75"⟩⟩).minimum_margin_cents =
      ⌊(mkRat 23 4 : ℚ)⌋ * 100 :=
  ⟨by decide,
    (claim_C6 ⟨"0", "MAX", ⟨"20", "5.75"⟩⟩ (mkRat 23 4) (by decide)).1⟩

/-- Modelled from the spec: one validated price tier of the Evaluator (spec
section 4.3); the evaluator itself has no implementation under src/ — only
the UI collecting its configuration is present — so the tier and
evaluatePrice below follow the spec's words.  `none` is the OPEN upper
bound. -/
structure PriceTier where
  lowerBound : ℚ
  upperBound : Option ℚ
  marginPercent : ℚ
  minimumMarginMinorUnits : Int
deriving DecidableEq, Repr

/-- Modelled from the spec: `contains(tier, value)` of spec section 4.1. -/
def tierContains (t : PriceTier) (x : ℚ) : Bool :=
  decide (t.lowerBound ≤ x) &&
    (match t.upperBound with
     | none => true
     | some u => decide (x < u))

/-- Modelled from the spec: the evaluator's error kinds (spec section 7). -/
inductive EvalError
  | infeasibleMargin
  | unreachableTier
deriving DecidableEq, Repr

/-- Modelled from the spec: rounding to 2 decimal places, round-half-up
(spec section 4.3 step 5). -/
def round2 (x : ℚ) : ℚ := (roundHalfUp (x * 100) : ℚ) / 100

/-- Modelled from the spec: evaluatePrice (spec section 4.3): select the
containing tier, tax the cost, price through the fee+margin divisor
(InfeasibleMarginError when the divisor is not positive), enforce the
minimum-margin floor on the rounded minor-unit profit, and round half-up to
2 decimals. -/
def evaluatePrice (ruleSet : List PriceTier)
    (vendorCost purchaseTaxPercent marketplaceFeesPercent : ℚ) : Except EvalError ℚ :=
  match ruleSet.find? (fun t => tierContains t vendorCost) with
  | none => Except.error EvalError.unreachableTier
  | some t =>
    let costWithTax := vendorCost * (1 + purchaseTaxPercent / 100)
    let divisor := 1 - (marketplaceFeesPercent + t.marginPercent) / 100
    if divisor ≤ 0 then Except.error EvalError.infeasibleMargin
    else
      let candidate := costWithTax / divisor
      let profitMinorUnits := roundHalfUp ((candidate - costWithTax) * 100)
      let final :=
        if profitMinorUnits < t.minimumMarginMinorUnits then
          costWithTax + (t.minimumMarginMinorUnits : ℚ) / 100
        else candidate
      Except.ok (round2 final)

/-- C7: the spec's first end-to-end scenario. -/
theorem claim_C7 :
    ([⟨0, some 50, 20, 500⟩, ⟨50, none, 15, 1000⟩] : List PriceTier).find?
        (fun t => tierContains t 40) = some ⟨0, some 50, 20, 500⟩ ∧
    (40 : ℚ) * (1 + 0 / 100) / (1 - (0 + 20) / 100) = 50 ∧
    roundHalfUp (((50 : ℚ) - 40 * (1 + 0 / 100)) * 100) = 1000 ∧
    ¬ ((1000 : ℤ) < 500) ∧
    evaluatePrice [⟨0, some 50, 20, 500⟩, ⟨50, none, 15, 1000⟩] 40 0 0 =
      Except.ok 50 := by
  refine ⟨by decide, by norm_num, ?_, by decide, ?_⟩
  · rw [roundHalfUp]
    norm_num
  · rw [evaluatePrice]
    rw [show ([⟨0, some 50, 20, 500⟩, ⟨50, none, 15, 1000⟩] : List PriceTier).find?
        (fun t => tierContains t 40) = some ⟨0, some 50, 20, 500⟩ from by decide]
    dsimp only
    rw [if_neg (by norm_num)]
    rw [if_neg (by rw [roundHalfUp]; norm_num)]
    rw [round2, roundHalfUp]
    norm_num

/-! The vendor-collection operations of MultiStepForm.jsx and part_008.
React state setters receive the previous array and return the next one, so
each handler is a pure function of the list. -/

/-- `value.replace(/[^0-9.]/g, "")`: keep only digits and dots. -/
def sanitizeNum (s : String) : String :=
  String.mk (s.data.filter (fun c => isDig c || decide (c = '.')))

/-- `x + 100` written on numerator and denominator so the kernel can
evaluate it. -/
def qAdd100 (x : ℚ) : ℚ := mkRat (x.num + 100 * (x.den : ℤ)) x.den

/-- qAdd100 is addition of 100. -/
theorem qAdd100_eq (x : ℚ) : qAdd100 x = x + 100 := by
  have hd : ((x.den : ℚ)) ≠ 0 := by exact_mod_cast x.den_pos.ne'
  have hx : x * ((x.den : ℚ)) = (x.num : ℚ) := by
    nth_rewrite 1 [← Rat.num_div_den x]
    rw [div_mul_cancel₀ _ hd]
  rw [qAdd100, Rat.mkRat_eq_div]
  rw [div_eq_iff hd]
  push_cast
  rw [add_mul, hx]

/-- Replace the element at one index, leaving the list unchanged when the
index is out of range: `updated[i] = f(updated[i])` / a positional map. -/
def modifyIdx {α : Type} (f : α → α) : ℕ → List α → List α
  | _, [] => []
  | 0, a :: l => f a :: l
  | n + 1, a :: l => a :: modifyIdx f n l

/-- JS Array.prototype.findIndex, with -1 modelled as none. -/
def findIdxO {α : Type} (p : α → Bool) : List α → Option ℕ
  | [] => none
  | a :: l => if p a then some 0 else (findIdxO p l).map (· + 1)

/-- Rewrite the last row's `to` to the MAX sentinel:
`ranges[ranges.length-1] = { ...last, to: "MAX" }`. -/
def setLastToMax {π : Type} : List (RangeRow π) → List (RangeRow π)
  | [] => []
  | [r] => [{ r with to_ := "MAX" }]
  | r :: rest => r :: setLastToMax rest

/-- addPriceVendor: reject a vendor id already present, otherwise append a
fresh entry with one default 0–MAX range. -/
def addPriceVendor (state : List PriceVendor) (vid : Int) : List PriceVendor :=
  if (state.map PriceVendor.vendorId).contains vid then state
  else state ++ [⟨vid, "", "", [⟨"0", "MAX", ⟨"", ""⟩⟩]⟩]

/-- removePriceVendor: drop every entry with the given vendor id. -/
def removePriceVendor (state : List PriceVendor) (vendorId : Int) : List PriceVendor :=
  state.filter (fun v => !(v.vendorId == vendorId))

/-- The two fields updatePriceVendorField is invoked with. -/
inductive PriceVendorField
  | purchaseTaxField
  | marketplaceFeesField
deriving DecidableEq, Repr

/-- updatePriceVendorField: sanitized update of one vendor-level field. -/
def updatePriceVendorField (state : List PriceVendor) (vendorId : Int)
    (field : PriceVendorField) (value : String) : List PriceVendor :=
  state.map fun v =>
    if v.vendorId == vendorId then
      match field with
      | PriceVendorField.purchaseTaxField => { v with purchaseTax := sanitizeNum value }
      | PriceVendorField.marketplaceFeesField => { v with marketplaceFees := sanitizeNum value }
    else v

/-- addPriceRange: close the previously open last row at `from + 100` and
append a fresh open row starting there.  A NaN `from` (which JS would print
as the string "NaN") is read as 0 here, as in sortKey; an empty ranges list
(impossible through the UI, and a TypeError in the JS) is left unchanged. -/
def addPriceRange (state : List PriceVendor) (vendorId : Int) : List PriceVendor :=
  state.map fun v =>
    if v.vendorId == vendorId then
      match v.priceRanges.getLast? with
      | none => v
      | some last =>
        { v with priceRanges :=
            v.priceRanges.dropLast ++
              [{ last with to_ := qToString (qAdd100 (sortKey last)) },
               ⟨qToString (qAdd100 (sortKey last)), "MAX", ⟨"", ""⟩⟩] }
    else v

/-- The four fields updatePriceRange is invoked with. -/
inductive PriceRangeField
  | fromField
  | toField
  | marginField
  | minimumMarginField
deriving DecidableEq, Repr

/-- One sanitized field write on a price range row (the source's `to` branch
of the ternary applies the same sanitization as the others). -/
def setPriceRangeField (r : RangeRow PricePayload) :
    PriceRangeField → String → RangeRow PricePayload
  | PriceRangeField.fromField, s => { r with from_ := s }
  | PriceRangeField.toField, s => { r with to_ := s }
  | PriceRangeField.marginField, s => { r with payload := { r.payload with margin := s } }
  | PriceRangeField.minimumMarginField, s =>
      { r with payload := { r.payload with minimumMargin := s } }

/-- updatePriceRange: sanitized update of one field of one range row. -/
def updatePriceRange (state : List PriceVendor) (vendorId : Int) (idx : ℕ)
    (field : PriceRangeField) (value : String) : List PriceVendor :=
  state.map fun v =>
    if v.vendorId == vendorId then
      { v with priceRanges :=
          (modifyIdx (fun r => setPriceRangeField r field (sanitizeNum value)) idx
            v.priceRanges) }
    else v

/-- removePriceRangeRow: drop the row at idx; an emptied list is replaced by
the default 0–MAX row, otherwise the new last row is re-opened to MAX. -/
def removePriceRangeRow (state : List PriceVendor) (vendorId : Int) (idx : ℕ) :
    List PriceVendor :=
  state.map fun v =>
    if v.vendorId == vendorId then
      if (v.priceRanges.eraseIdx idx).isEmpty then
        { v with priceRanges := [⟨"0", "MAX", ⟨"", ""⟩⟩] }
      else { v with priceRanges := setLastToMax (v.priceRanges.eraseIdx idx) }
    else v

/-- addInventoryVendor: as addPriceVendor, for the inventory tab. -/
def addInventoryVendor (istate : List InventoryVendor) (vid : Int) : List InventoryVendor :=
  if (istate.map InventoryVendor.vendorId).contains vid then istate
  else istate ++ [⟨vid, [⟨"0", "MAX", ⟨""⟩⟩]⟩]

/-- removeInventoryVendor. -/
def removeInventoryVendor (istate : List InventoryVendor) (vendorId : Int) :
    List InventoryVendor :=
  istate.filter (fun v => !(v.vendorId == vendorId))

/-- addInventoryRange, as addPriceRange. -/
def addInventoryRange (istate : List InventoryVendor) (vendorId : Int) :
    List InventoryVendor :=
  istate.map fun v =>
    if v.vendorId == vendorId then
      match v.priceRanges.getLast? with
      | none => v
      | some last =>
        { v with priceRanges :=
            v.priceRanges.dropLast ++
              [{ last with to_ := qToString (qAdd100 (sortKey last)) },
               ⟨qToString (qAdd100 (sortKey last)), "MAX", ⟨""⟩⟩] }
    else v

/-- The three fields updateInventoryRange is invoked with. -/
inductive InvRangeField
  | fromField
  | toField
  | multipliedWithField
deriving DecidableEq, Repr

/-- One sanitized field write on an inventory range row. -/
def setInvRangeField (r : RangeRow InvPayload) : InvRangeField → String → RangeRow InvPayload
  | InvRangeField.fromField, s => { r with from_ := s }
  | InvRangeField.toField, s => { r with to_ := s }
  | InvRangeField.multipliedWithField, s => { r with payload := ⟨s⟩ }

/-- updateInventoryRange. -/
def updateInventoryRange (istate : List InventoryVendor) (vendorId : Int) (idx : ℕ)
    (field : InvRangeField) (value : String) : List InventoryVendor :=
  istate.map fun v =>
    if v.vendorId == vendorId then
      { v with priceRanges :=
          (modifyIdx (fun r => setInvRangeField r field (sanitizeNum value)) idx
            v.priceRanges) }
    else v

/-- removeInventoryRangeRow, as removePriceRangeRow. -/
def removeInventoryRangeRow (istate : List InventoryVendor) (vendorId : Int) (idx : ℕ) :
    List InventoryVendor :=
  istate.map fun v =>
    if v.vendorId == vendorId then
      if (v.priceRanges.eraseIdx idx).isEmpty then
        { v with priceRanges := [⟨"0", "MAX", ⟨""⟩⟩] }
      else { v with priceRanges := setLastToMax (v.priceRanges.eraseIdx idx) }
    else v

/-- addVendorToActiveTab (part_008), price tab: like addPriceVendor but with
"0"-initialised fees and payload. -/
def addVendorToActiveTabPrice (state : List PriceVendor) (vid : Int) : List PriceVendor :=
  if (state.map PriceVendor.vendorId).contains vid then state
  else state ++ [⟨vid, "0", "0", [⟨"0", "MAX", ⟨"0", "0"⟩⟩]⟩]

/-- addVendorToActiveTab (part_008), inventory tab. -/
def addVendorToActiveTabInventory (istate : List InventoryVendor) (vid : Int) :
    List InventoryVendor :=
  if (istate.map InventoryVendor.vendorId).contains vid then istate
  else istate ++ [⟨vid, [⟨"0", "MAX", ⟨"1"⟩⟩]⟩]

/-- The range copy of applyDuplicate (price): default empty `from` to "0",
normalise a to-field that uppercases to "MAX" to the literal "MAX", keep the
payload strings (their `String(x || "")` is the identity on strings). -/
def dupPriceRange (r : RangeRow PricePayload) : RangeRow PricePayload :=
  { from_ := jsOr r.from_ "0"
    to_ := if jsToUpper (jsOr r.to_ "MAX") = "MAX" then "MAX" else r.to_
    payload := { margin := jsOr r.payload.margin ""
                 minimumMargin := jsOr r.payload.minimumMargin "" } }

/-- The range copy of applyDuplicate (inventory). -/
def dupInvRange (r : RangeRow InvPayload) : RangeRow InvPayload :=
  { from_ := jsOr r.from_ "0"
    to_ := if jsToUpper (jsOr r.to_ "MAX") = "MAX" then "MAX" else r.to_
    payload := { multipliedWith := jsOr r.payload.multipliedWith "" } }

/-- applyDuplicate, price branch.  The parsed modal ids are taken as
integers (the Number.isFinite guards reject unselected vendors before any
state change); `vendors` is the vendor catalog consulted by the
`vendors.find` guard; `confirmOverwrite` is the answer to the
window.confirm prompt.  On every guard failure the state is returned
unchanged, as the JS handler returns without calling the setter or the
updater returns prev. -/
def applyDuplicatePrice (vendors : List Int) (state : List PriceVendor)
    (fromId toId : Int) (copyFees confirmOverwrite : Bool) : List PriceVendor :=
  if (vendors.find? (fun v => v == toId)).isNone then state
  else
    match state.find? (fun v => v.vendorId == fromId) with
    | none => state
    | some source =>
      match findIdxO (fun v => v.vendorId == toId) state with
      | some i =>
        if confirmOverwrite then
          modifyIdx (fun ex =>
            { ex with
              priceRanges := source.priceRanges.map dupPriceRange
              purchaseTax := if copyFees then jsOr source.purchaseTax "" else ex.purchaseTax
              marketplaceFees :=
                if copyFees then jsOr source.marketplaceFees "" else ex.marketplaceFees })
            i state
        else state
      | none =>
        state ++ [{ vendorId := toId
                    purchaseTax := if copyFees then jsOr source.purchaseTax "" else ""
                    marketplaceFees := if copyFees then jsOr source.marketplaceFees "" else ""
                    priceRanges := source.priceRanges.map dupPriceRange }]

/-- applyDuplicate, inventory branch. -/
def applyDuplicateInventory (vendors : List Int) (istate : List InventoryVendor)
    (fromId toId : Int) (confirmOverwrite : Bool) : List InventoryVendor :=
  if (vendors.find? (fun v => v == toId)).isNone then istate
  else
    match istate.find? (fun v => v.vendorId == fromId) with
    | none => istate
    | some source =>
      match findIdxO (fun v => v.vendorId == toId) istate with
      | some i =>
        if confirmOverwrite then
          modifyIdx (fun ex => { ex with priceRanges := source.priceRanges.map dupInvRange })
            i istate
        else istate
      | none =>
        istate ++ [{ vendorId := toId, priceRanges := source.priceRanges.map dupInvRange }]

/-! Claim C8: duplicate safety. -/

/-- Appending an element the predicate rejects does not change find?. -/
theorem find?_append_singleton_of_neg {α : Type} (p : α → Bool) (b : α)
    (hb : p b = false) : ∀ l : List α, (l ++ [b]).find? p = l.find? p := by
  intro l
  induction l with
  | nil => simp [List.find?, hb]
  | cons a t ih =>
    cases hpa : p a <;> simp [List.find?, hpa, ih]

/-- find? ignores a positional rewrite at an index whose element the
predicate rejects, by a function that does not change the predicate. -/
theorem find?_modifyIdx {α : Type} (p : α → Bool) (f : α → α)
    (hpf : ∀ x, p (f x) = p x) :
    ∀ (l : List α) (i : ℕ), (∀ e, l[i]? = some e → p e = false) →
      (modifyIdx f i l).find? p = l.find? p := by
  intro l
  induction l with
  | nil => intro i _; cases i <;> rfl
  | cons a t ih =>
    intro i hpe
    cases i with
    | zero =>
      have ha : p a = false := hpe a (by simp)
      have hfa : p (f a) = false := by rw [hpf a]; exact ha
      rw [modifyIdx]
      simp [List.find?, ha, hfa]
    | succ i =>
      rw [modifyIdx]
      cases hpa : p a
      · simp only [List.find?, hpa]
        exact ih i (fun e he => hpe e (by simpa using he))
      · simp [List.find?, hpa]

/-- The element findIdxO points at satisfies the predicate. -/
theorem findIdxO_some_mem {α : Type} (p : α → Bool) :
    ∀ (l : List α) (i : ℕ), findIdxO p l = some i →
      ∃ e, l[i]? = some e ∧ p e = true := by
  intro l
  induction l with
  | nil => intro i h; exact absurd h (by simp [findIdxO])
  | cons a t ih =>
    intro i h
    rw [findIdxO] at h
    by_cases hpa : p a = true
    · rw [if_pos hpa] at h
      have : i = 0 := (Option.some.injEq _ _ ▸ h).symm
      subst this
      exact ⟨a, by simp, hpa⟩
    · rw [if_neg hpa] at h
      obtain ⟨j, hj, hji⟩ := Option.map_eq_some'.1 h
      obtain ⟨e, he, hpe⟩ := ih j hj
      subst hji
      exact ⟨e, by simpa using he, hpe⟩

/-- When findIdxO finds nothing, nothing satisfies the predicate. -/
theorem findIdxO_none {α : Type} (p : α → Bool) :
    ∀ l : List α, findIdxO p l = none → ∀ x ∈ l, p x = false := by
  intro l
  induction l with
  | nil => intro _ x hx; exact absurd hx (List.not_mem_nil x)
  | cons a t ih =>
    intro h x hx
    rw [findIdxO] at h
    by_cases hpa : p a = true
    · rw [if_pos hpa] at h
      exact absurd h (by simp)
    · rw [if_neg hpa] at h
      rcases List.mem_cons.1 hx with rfl | hxt
      · exact Bool.not_eq_true _ ▸ hpa
      · exact ih (by simpa using h) x hxt

/-- C8 (amended): the duplicate operation never changes the source vendor's
entry when the target vendor differs from the source (self-duplication with
an approved overwrite replaces the source entry with its normalised copy);
and with an existing target entry and no overwrite approval, the whole
collection is returned unchanged — for both the price and the inventory
branch. -/
theorem claim_C8 (vendors : List Int) (state : List PriceVendor)
    (istate : List InventoryVendor) (fromId toId : Int)
    (copyFees confirmOverwrite : Bool) :
    (fromId ≠ toId →
      (applyDuplicatePrice vendors state fromId toId copyFees confirmOverwrite).find?
          (fun v => v.vendorId == fromId) =
        state.find? (fun v => v.vendorId == fromId)) ∧
    ((findIdxO (fun v => v.vendorId == toId) state).isSome = true →
      confirmOverwrite = false →
      applyDuplicatePrice vendors state fromId toId copyFees confirmOverwrite = state) ∧
    (fromId ≠ toId →
      (applyDuplicateInventory vendors istate fromId toId confirmOverwrite).find?
          (fun v => v.vendorId == fromId) =
        istate.find? (fun v => v.vendorId == fromId)) ∧
    ((findIdxO (fun v => v.vendorId == toId) istate).isSome = true →
      confirmOverwrite = false →
      applyDuplicateInventory vendors istate fromId toId confirmOverwrite = istate) := by
  refine ⟨?_, ?_, ?_, ?_⟩
  · intro hne
    rw [applyDuplicatePrice]
    split
    · rfl
    · split
      · rfl
      · split
        · rename_i source _ i hidx
          split
          · apply find?_modifyIdx
            · intro x
              rfl
            · intro e he
              obtain ⟨e2, he2, hpe2⟩ := findIdxO_some_mem _ state i hidx
              rw [he] at he2
              have hee : e = e2 := Option.some.injEq _ _ ▸ he2
              subst hee
              rw [beq_eq_false_iff_ne]
              intro hef
              rw [beq_iff_eq] at hpe2
              exact hne (hef ▸ hpe2)
          · rfl
        · apply find?_append_singleton_of_neg
          show (toId == fromId) = false
          rw [beq_eq_false_iff_ne]
          exact fun h => hne h.symm
  · intro hsome hco
    rw [applyDuplicatePrice]
    split
    · rfl
    · split
      · rfl
      · split
        · rename_i source _ i hidx
          split
          · rename_i hcot
            rw [hco] at hcot
            exact absurd hcot (by simp)
          · rfl
        · rename_i source hidx
          rw [hidx] at hsome
          exact absurd hsome (by simp)
  · intro hne
    rw [applyDuplicateInventory]
    split
    · rfl
    · split
      · rfl
      · split
        · rename_i source _ i hidx
          split
          · apply find?_modifyIdx
            · intro x
              rfl
            · intro e he
              obtain ⟨e2, he2, hpe2⟩ := findIdxO_some_mem _ istate i hidx
              rw [he] at he2
              have hee : e = e2 := Option.some.injEq _ _ ▸ he2
              subst hee
              rw [beq_eq_false_iff_ne]
              intro hef
              rw [beq_iff_eq] at hpe2
              exact hne (hef ▸ hpe2)
          · rfl
        · apply find?_append_singleton_of_neg
          show (toId == fromId) = false
          rw [beq_eq_false_iff_ne]
          exact fun h => hne h.symm
  · intro hsome hco
    rw [applyDuplicateInventory]
    split
    · rfl
    · split
      · rfl
      · split
        · rename_i source _ i hidx
          split
          · rename_i hcot
            rw [hco] at hcot
            exact absurd hcot (by simp)
          · rfl
        · rename_i source hidx
          rw [hidx] at hsome
          exact absurd hsome (by simp)

/-- C8 as stated is false on the code: duplicating a vendor onto itself with
the overwrite confirmed replaces the source binding with its normalised copy
(the empty `from` becomes "0"), so the source binding is not always
preserved. -/
theorem claim_C8_counterexample :
    applyDuplicatePrice [7] [⟨7, "", "", [⟨"", "MAX", ⟨"", ""⟩⟩]⟩] 7 7 false true =
      [⟨7, "", "", [⟨"0", "MAX", ⟨"", ""⟩⟩]⟩] ∧
    (applyDuplicatePrice [7] [⟨7, "", "", [⟨"", "MAX", ⟨"", ""⟩⟩]⟩] 7 7 false true).find?
        (fun v => v.vendorId == 7) ≠
      ([⟨7, "", "", [⟨"", "MAX", ⟨"", ""⟩⟩]⟩] : List PriceVendor).find?
        (fun v => v.vendorId == 7) := by
  decide

/-- Witness for claim_C8: a distinct source and an existing unconfirmed
target. -/
theorem claim_C8_witness :
    ((1 : Int) ≠ 2) ∧
    (findIdxO (fun v => v.vendorId == 2)
        [(⟨1, "5", "2", [⟨"0", "MAX", ⟨"20", "5"⟩⟩]⟩ : PriceVendor),
         ⟨2, "", "", [⟨"0", "MAX", ⟨"1", "1"⟩⟩]⟩]).isSome = true ∧
    (applyDuplicatePrice [1, 2]
        [⟨1, "5", "2", [⟨"0", "MAX", ⟨"20", "5"⟩⟩]⟩,
         ⟨2, "", "", [⟨"0", "MAX", ⟨"1", "1"⟩⟩]⟩]
        1 2 true false).find? (fun v => v.vendorId == 1) =
      ([⟨1, "5", "2", [⟨"0", "MAX", ⟨"20", "5"⟩⟩]⟩,
        ⟨2, "", "", [⟨"0", "MAX", ⟨"1", "1"⟩⟩]⟩] : List PriceVendor).find?
        (fun v => v.vendorId == 1) ∧
    applyDuplicatePrice [1, 2]
        [⟨1, "5", "2", [⟨"0", "MAX", ⟨"20", "5"⟩⟩]⟩,
         ⟨2, "", "", [⟨"0", "MAX", ⟨"1", "1"⟩⟩]⟩]
        1 2 true false =
      [⟨1, "5", "2", [⟨"0", "MAX", ⟨"20", "5"⟩⟩]⟩,
       ⟨2, "", "", [⟨"0", "MAX", ⟨"1", "1"⟩⟩]⟩] :=
  ⟨by decide, by decide,
    (claim_C8 [1, 2]
      [⟨1, "5", "2", [⟨"0", "MAX", ⟨"20", "5"⟩⟩]⟩,
       ⟨2, "", "", [⟨"0", "MAX", ⟨"1", "1"⟩⟩]⟩] [] 1 2 true false).1 (by decide),
    (claim_C8 [1, 2]
      [⟨1, "5", "2", [⟨"0", "MAX", ⟨"20", "5"⟩⟩]⟩,
       ⟨2, "", "", [⟨"0", "MAX", ⟨"1", "1"⟩⟩]⟩] [] 1 2 true false).2.1 (by decide) rfl⟩

/-! Claim C9: at most one entry per vendor id. -/

/-- A pointwise rewrite that never touches the id leaves the id list
unchanged. -/
theorem map_ids_map_of_preserve {α β : Type} (idOf : α → β) (f : α → α)
    (hp : ∀ v, idOf (f v) = idOf v) (l : List α) :
    (l.map f).map idOf = l.map idOf := by
  rw [List.map_map]
  exact List.map_congr_left (fun a _ => hp a)

/-- A positional rewrite that never touches the id leaves the id list
unchanged. -/
theorem map_ids_modifyIdx {α β : Type} (idOf : α → β) (f : α → α)
    (hp : ∀ v, idOf (f v) = idOf v) :
    ∀ (i : ℕ) (l : List α), (modifyIdx f i l).map idOf = l.map idOf := by
  intro i l
  induction l generalizing i with
  | nil => cases i <;> rfl
  | cons a t ih =>
    cases i with
    | zero => rw [modifyIdx]; simp [hp]
    | succ i => rw [modifyIdx]; simp [ih]

/-- Filtering keeps the id list duplicate-free. -/
theorem nodup_ids_filter {α β : Type} (idOf : α → β) (p : α → Bool) (l : List α)
    (h : (l.map idOf).Nodup) : ((l.filter p).map idOf).Nodup :=
  List.Nodup.sublist ((l.filter_sublist).map idOf) h

/-- Appending an entry with a fresh id keeps the id list duplicate-free. -/
theorem nodup_ids_append {α β : Type} (idOf : α → β) (l : List α) (e : α)
    (h : (l.map idOf).Nodup) (he : idOf e ∉ l.map idOf) :
    ((l ++ [e]).map idOf).Nodup := by
  rw [List.map_append]
  exact List.Nodup.append h (List.nodup_singleton _)
    (fun a ha hb => absurd (List.mem_singleton.1 hb ▸ ha) he)

/-- A failed contains check means the id is absent. -/
theorem not_mem_of_not_contains {β : Type} [BEq β] [LawfulBEq β] {l : List β} {a : β}
    (h : ¬ l.contains a = true) : a ∉ l := by
  intro hm
  exact h (List.elem_iff.2 hm)

/-- C9: every vendor-collection operation preserves "at most one entry per
vendor id", for both the price-settings and the inventory-settings list. -/
theorem claim_C9 (vendors : List Int) (state : List PriceVendor)
    (istate : List InventoryVendor) (vid fromId toId : Int) (idx : ℕ)
    (pvField : PriceVendorField) (prField : PriceRangeField) (ivField : InvRangeField)
    (value : String) (copyFees confirmOverwrite : Bool)
    (hP : (state.map PriceVendor.vendorId).Nodup)
    (hI : (istate.map InventoryVendor.vendorId).Nodup) :
    ((addPriceVendor state vid).map PriceVendor.vendorId).Nodup ∧
    ((removePriceVendor state vid).map PriceVendor.vendorId).Nodup ∧
    ((updatePriceVendorField state vid pvField value).map PriceVendor.vendorId).Nodup ∧
    ((addPriceRange state vid).map PriceVendor.vendorId).Nodup ∧
    ((updatePriceRange state vid idx prField value).map PriceVendor.vendorId).Nodup ∧
    ((removePriceRangeRow state vid idx).map PriceVendor.vendorId).Nodup ∧
    ((applyDuplicatePrice vendors state fromId toId copyFees confirmOverwrite).map
      PriceVendor.vendorId).Nodup ∧
    ((addVendorToActiveTabPrice state vid).map PriceVendor.vendorId).Nodup ∧
    ((addInventoryVendor istate vid).map InventoryVendor.vendorId).Nodup ∧
    ((removeInventoryVendor istate vid).map InventoryVendor.vendorId).Nodup ∧
    ((addInventoryRange istate vid).map InventoryVendor.vendorId).Nodup ∧
    ((updateInventoryRange istate vid idx ivField value).map InventoryVendor.vendorId).Nodup ∧
    ((removeInventoryRangeRow istate vid idx).map InventoryVendor.vendorId).Nodup ∧
    ((applyDuplicateInventory vendors istate fromId toId confirmOverwrite).map
      InventoryVendor.vendorId).Nodup ∧
    ((addVendorToActiveTabInventory istate vid).map InventoryVendor.vendorId).Nodup := by
  refine ⟨?_, ?_, ?_, ?_, ?_, ?_, ?_, ?_, ?_, ?_, ?_, ?_, ?_, ?_, ?_⟩
  · rw [addPriceVendor]
    split
    · exact hP
    · rename_i hc
      exact nodup_ids_append _ _ _ hP (not_mem_of_not_contains hc)
  · rw [removePriceVendor]
    exact nodup_ids_filter _ _ _ hP
  · rw [updatePriceVendorField, map_ids_map_of_preserve]
    · exact hP
    · intro v
      split
      · cases pvField <;> rfl
      · rfl
  · rw [addPriceRange, map_ids_map_of_preserve]
    · exact hP
    · intro v
      split
      · split <;> rfl
      · rfl
  · rw [updatePriceRange, map_ids_map_of_preserve]
    · exact hP
    · intro v
      split <;> rfl
  · rw [removePriceRangeRow, map_ids_map_of_preserve]
    · exact hP
    · intro v
      split
      · split <;> rfl
      · rfl
  · rw [applyDuplicatePrice]
    split
    · exact hP
    · split
      · exact hP
      · split
        · split
          · rw [map_ids_modifyIdx]
            · exact hP
            · intro v
              rfl
          · exact hP
        · rename_i source hidx
          apply nodup_ids_append _ _ _ hP
          intro hmem
          obtain ⟨v, hv, hveq⟩ := List.mem_map.1 hmem
          have := findIdxO_none _ state hidx v hv
          rw [hveq] at this
          simp at this
  · rw [addVendorToActiveTabPrice]
    split
    · exact hP
    · rename_i hc
      exact nodup_ids_append _ _ _ hP (not_mem_of_not_contains hc)
  · rw [addInventoryVendor]
    split
    · exact hI
    · rename_i hc
      exact nodup_ids_append _ _ _ hI (not_mem_of_not_contains hc)
  · rw [removeInventoryVendor]
    exact nodup_ids_filter _ _ _ hI
  · rw [addInventoryRange, map_ids_map_of_preserve]
    · exact hI
    · intro v
      split
      · split <;> rfl
      · rfl
  · rw [updateInventoryRange, map_ids_map_of_preserve]
    · exact hI
    · intro v
      split <;> rfl
  · rw [removeInventoryRangeRow, map_ids_map_of_preserve]
    · exact hI
    · intro v
      split
      · split <;> rfl
      · rfl
  · rw [applyDuplicateInventory]
    split
    · exact hI
    · split
      · exact hI
      · split
        · split
          · rw [map_ids_modifyIdx]
            · exact hI
            · intro v
              rfl
          · exact hI
        · rename_i source hidx
          apply nodup_ids_append _ _ _ hI
          intro hmem
          obtain ⟨v, hv, hveq⟩ := List.mem_map.1 hmem
          have := findIdxO_none _ istate hidx v hv
          rw [hveq] at this
          simp at this
  · rw [addVendorToActiveTabInventory]
    split
    · exact hI
    · rename_i hc
      exact nodup_ids_append _ _ _ hI (not_mem_of_not_contains hc)

/-- Witness for claim_C9 at a concrete two-vendor price list and a one-vendor
inventory list. -/
theorem claim_C9_witness :
    (([(⟨1, "", "", [⟨"0", "MAX", ⟨"", ""⟩⟩]⟩ : PriceVendor),
        ⟨2, "", "", [⟨"0", "MAX", ⟨"", ""⟩⟩]⟩].map PriceVendor.vendorId).Nodup) ∧
    (([(⟨3, [⟨"0", "MAX", ⟨""⟩⟩]⟩ : InventoryVendor)].map InventoryVendor.vendorId).Nodup) ∧
    ((addPriceVendor
        [⟨1, "", "", [⟨"0", "MAX", ⟨"", ""⟩⟩]⟩, ⟨2, "", "", [⟨"0", "MAX", ⟨"", ""⟩⟩]⟩]
        9).map PriceVendor.vendorId).Nodup :=
  ⟨by decide, by decide,
    (claim_C9 [1, 2]
      [⟨1, "", "", [⟨"0", "MAX", ⟨"", ""⟩⟩]⟩, ⟨2, "", "", [⟨"0", "MAX", ⟨"", ""⟩⟩]⟩]
      [⟨3, [⟨"0", "MAX", ⟨""⟩⟩]⟩] 9 1 2 0
      PriceVendorField.purchaseTaxField PriceRangeField.fromField InvRangeField.fromField
      "3" true false (by decide) (by decide)).1⟩

/-! Claim C10: removing a row keeps the range list non-empty and
MAX-terminated. -/

/-- setLastToMax ends a non-empty list with a MAX row. -/
theorem setLastToMax_spec {π : Type} :
    ∀ l : List (RangeRow π), l ≠ [] →
      ∃ r, (setLastToMax l).getLast? = some r ∧ r.to_ = "MAX" := by
  intro l
  induction l with
  | nil => intro h; exact absurd rfl h
  | cons a t ih =>
    intro _
    cases t with
    | nil => exact ⟨{ a with to_ := "MAX" }, rfl, rfl⟩
    | cons b rest =>
      obtain ⟨r, hr, hmax⟩ := ih (List.cons_ne_nil b rest)
      refine ⟨r, ?_, hmax⟩
      show (a :: setLastToMax (b :: rest)).getLast? = some r
      cases hsl : setLastToMax (b :: rest) with
      | nil => rw [hsl] at hr; exact absurd hr (by simp)
      | cons c cs =>
        rw [hsl] at hr
        rw [List.getLast?_cons_cons]
        exact hr

/-- A list with a last element is not empty. -/
theorem ne_nil_of_getLast?_eq_some {α : Type} {l : List α} {r : α}
    (h : l.getLast? = some r) : l ≠ [] := by
  intro he
  rw [he] at h
  exact Option.noConfusion h

/-- C10: after removePriceRangeRow / removeInventoryRangeRow, the affected
vendor's range list is non-empty and its last row's upper bound is the
literal "MAX" (deleting the terminal row re-opens the new last row, deleting
the only row reinstates the default 0–MAX row). -/
theorem claim_C10 (state : List PriceVendor) (istate : List InventoryVendor)
    (vid : Int) (idx : ℕ) :
    (∀ v ∈ removePriceRangeRow state vid idx, v.vendorId = vid →
      v.priceRanges ≠ [] ∧ ∃ r, v.priceRanges.getLast? = some r ∧ r.to_ = "MAX") ∧
    (∀ v ∈ removeInventoryRangeRow istate vid idx, v.vendorId = vid →
      v.priceRanges ≠ [] ∧ ∃ r, v.priceRanges.getLast? = some r ∧ r.to_ = "MAX") := by
  constructor
  · intro v hv hvid
    rw [removePriceRangeRow] at hv
    obtain ⟨w, hw, hfw⟩ := List.mem_map.1 hv
    by_cases hwid : (w.vendorId == vid) = true
    · rw [if_pos hwid] at hfw
      by_cases hemp : (w.priceRanges.eraseIdx idx).isEmpty = true
      · rw [if_pos hemp] at hfw
        rw [← hfw]
        exact ⟨by simp, ⟨"0", "MAX", ⟨"", ""⟩⟩, rfl, rfl⟩
      · rw [if_neg hemp] at hfw
        obtain ⟨r, hr, hmax⟩ := setLastToMax_spec (w.priceRanges.eraseIdx idx)
          (by simpa using hemp)
        rw [← hfw]
        exact ⟨ne_nil_of_getLast?_eq_some hr, r, hr, hmax⟩
    · rw [if_neg hwid] at hfw
      rw [← hfw] at hvid
      exact absurd hvid (by simpa using hwid)
  · intro v hv hvid
    rw [removeInventoryRangeRow] at hv
    obtain ⟨w, hw, hfw⟩ := List.mem_map.1 hv
    by_cases hwid : (w.vendorId == vid) = true
    · rw [if_pos hwid] at hfw
      by_cases hemp : (w.priceRanges.eraseIdx idx).isEmpty = true
      · rw [if_pos hemp] at hfw
        rw [← hfw]
        exact ⟨by simp, ⟨"0", "MAX", ⟨""⟩⟩, rfl, rfl⟩
      · rw [if_neg hemp] at hfw
        obtain ⟨r, hr, hmax⟩ := setLastToMax_spec (w.priceRanges.eraseIdx idx)
          (by simpa using hemp)
        rw [← hfw]
        exact ⟨ne_nil_of_getLast?_eq_some hr, r, hr, hmax⟩
    · rw [if_neg hwid] at hfw
      rw [← hfw] at hvid
      exact absurd hvid (by simpa using hwid)

/-- Witness for claim_C10: deleting the terminal row of a two-row vendor. -/
theorem claim_C10_witness :
    ((⟨4, "", "", [⟨"0", "MAX", ⟨"20", "5"⟩⟩]⟩ : PriceVendor) ∈
        removePriceRangeRow
          [⟨4, "", "", [⟨"0", "50", ⟨"20", "5"⟩⟩, ⟨"50", "MAX", ⟨"15", "9"⟩⟩]⟩] 4 1) ∧
    ([(⟨"0", "MAX", ⟨"20", "5"⟩⟩ : RangeRow PricePayload)] ≠ []) ∧
    (∃ r, ([(⟨"0", "MAX", ⟨"20", "5"⟩⟩ : RangeRow PricePayload)]).getLast? = some r ∧
      r.to_ = "MAX") :=
  ⟨by decide,
    ((claim_C10 [⟨4, "", "", [⟨"0", "50", ⟨"20", "5"⟩⟩, ⟨"50", "MAX", ⟨"15", "9"⟩⟩]⟩] [] 4 1).1
      ⟨4, "", "", [⟨"0", "MAX", ⟨"20", "5"⟩⟩]⟩ (by decide) rfl).1,
    ((claim_C10 [⟨4, "", "", [⟨"0", "50", ⟨"20", "5"⟩⟩, ⟨"50", "MAX", ⟨"15", "9"⟩⟩]⟩] [] 4 1).1
      ⟨4, "", "", [⟨"0", "MAX", ⟨"20", "5"⟩⟩]⟩ (by decide) rfl).2⟩
